import Mathlib

/-!
Verification development for the XZCrawler repository.

The repository is a Node.js crawler for the xz.aliyun.com community site.
Its core logic (an HTML-to-Markdown conversion engine, a crawl
orchestrator with dedup/retry/windowing, and an image localizer) is
embedded shallowly below: pure string/list functions mirror the pure
JavaScript helpers, and the stateful orchestrator is modelled as explicit
state passing over entry lists.  The JSDOM/regex parsing layer and the
browser, network and filesystem collaborators are represented at their
interface level (node trees, fetch capabilities indexed by attempt,
association-list file stores), exactly as the functions under test
consume them.
-/

namespace XZ

/-! ## C1: inline-code fencing (`ne-code` handler of `convertDomNodeToMarkdown`)

JS source (src/unnamed/part_001, lines 897-907):
```
const raw = (node.textContent || '').replace(/\n+/g, ' ');
const runs = raw.match(/`+/g);
let fenceLen = 1;
if (runs && runs.length) {
    fenceLen = Math.max(...runs.map(s => s.length)) + 1;
}
const fence = '`'.repeat(fenceLen);
const needsPadding = raw.startsWith('`') || raw.endsWith('`') ||
                     raw.startsWith(' ') || raw.endsWith(' ');
return needsPadding ? `F raw F` : `FrawF`;   (F the fence)
```
-/

/-- Length of the run of copies of `c` at the head of the list. -/
def countLead (c : Char) : List Char → Nat
  | [] => 0
  | x :: r => if x = c then countLead c r + 1 else 0

/-- Length of the longest run of consecutive copies of `c` in the list.
This is the maximum of the lengths of the matches of the JS regex
`/c+/g`; it is `0` when there is no match. -/
def maxRun (c : Char) : List Char → Nat
  | [] => 0
  | x :: r => max (countLead c (x :: r)) (maxRun c r)

/-- Collapse each maximal run of newline characters to a single newline. -/
def squeezeNewlines : List Char → List Char
  | [] => []
  | [a] => [a]
  | a :: b :: r =>
    if a = '\n' ∧ b = '\n' then squeezeNewlines (b :: r)
    else a :: squeezeNewlines (b :: r)

/-- `raw.replace(/\n+/g, ' ')`: every maximal newline run becomes one
space. -/
def collapseNewlineRuns (l : List Char) : List Char :=
  (squeezeNewlines l).map fun ch => if ch = '\n' then ' ' else ch

/-- The `needsPadding` test of the `ne-code` handler: the collapsed
content starts or ends with a backtick or a space. -/
def needsPadding (raw : List Char) : Bool :=
  raw.head? == some '`' || raw.getLast? == some '`' ||
    raw.head? == some ' ' || raw.getLast? == some ' '

/-- The `ne-code` inline-code handler of `convertDomNodeToMarkdown`
(part_001 lines 897-907), as a function of the node's raw text content.
`fenceLen` is written `maxRun + 1` because the JS default `1` for
"no backtick match" coincides with `maxRun = 0` plus one. -/
def neCodeInline (textContent : String) : String :=
  let raw := collapseNewlineRuns textContent.toList
  let fence := List.replicate (maxRun '`' raw + 1) '`'
  if needsPadding raw then String.mk (fence ++ ' ' :: (raw ++ ' ' :: fence))
  else String.mk (fence ++ raw ++ fence)

theorem countLead_replicate_append (c : Char) (k : Nat) (v : List Char) :
    k ≤ countLead c (List.replicate k c ++ v) := by
  induction k with
  | zero => exact Nat.zero_le _
  | succ n ih =>
    have hstep : countLead c (List.replicate (n + 1) c ++ v)
        = countLead c (List.replicate n c ++ v) + 1 := by
      rw [List.replicate_succ, List.cons_append]
      simp [countLead]
    omega

theorem countLead_le_maxRun (c : Char) (l : List Char) :
    countLead c l ≤ maxRun c l := by
  cases l with
  | nil => exact Nat.le_refl _
  | cons x r => exact le_max_left _ _

theorem maxRun_append_right (c : Char) (u w : List Char) :
    maxRun c w ≤ maxRun c (u ++ w) := by
  induction u with
  | nil => exact Nat.le_refl _
  | cons x u ih =>
    calc maxRun c w ≤ maxRun c (u ++ w) := ih
    _ ≤ max (countLead c (x :: (u ++ w))) (maxRun c (u ++ w)) := le_max_right _ _
    _ = maxRun c ((x :: u) ++ w) := rfl

theorem replicate_infix_le_maxRun {c : Char} {k : Nat} {l : List Char}
    (h : List.replicate k c <:+: l) : k ≤ maxRun c l := by
  obtain ⟨s, t, hst⟩ := h
  calc k ≤ countLead c (List.replicate k c ++ t) := countLead_replicate_append c k t
  _ ≤ maxRun c (List.replicate k c ++ t) := countLead_le_maxRun _ _
  _ ≤ maxRun c (s ++ (List.replicate k c ++ t)) := maxRun_append_right _ _ _
  _ = maxRun c l := by rw [← List.append_assoc, hst]

theorem squeeze_no_newline : ∀ l : List Char, '\n' ∉ l → squeezeNewlines l = l
  | [], _ => rfl
  | [_], _ => rfl
  | a :: b :: r, h => by
    have ha : a ≠ '\n' := fun hh => h (hh ▸ List.mem_cons_self a _)
    have hbr : '\n' ∉ b :: r := fun hh => h (List.mem_cons_of_mem a hh)
    have hrec := squeeze_no_newline (b :: r) hbr
    simp [squeezeNewlines, ha, hrec]

theorem squeeze_pair_step : ∀ u : List Char, '\n' ∉ u → ∀ v : List Char,
    squeezeNewlines (u ++ '\n' :: '\n' :: v) = squeezeNewlines (u ++ '\n' :: v)
  | [], _, v => by
    simp [squeezeNewlines]
  | [x], h, v => by
    have hx : x ≠ '\n' := fun hh => h (hh ▸ List.mem_cons_self x _)
    simp [squeezeNewlines, hx]
  | x :: y :: u, h, v => by
    have hx : x ≠ '\n' := fun hh => h (hh ▸ List.mem_cons_self x _)
    have hyu : '\n' ∉ y :: u := fun hh => h (List.mem_cons_of_mem x hh)
    have hrec := squeeze_pair_step (y :: u) hyu v
    simp only [List.cons_append] at hrec ⊢
    simp [squeezeNewlines, hx, hrec]

theorem squeeze_single : ∀ u : List Char, '\n' ∉ u → ∀ v : List Char, '\n' ∉ v →
    squeezeNewlines (u ++ '\n' :: v) = u ++ '\n' :: v
  | [], _, [], _ => rfl
  | [], _, y :: v2, hv => by
    have hy : y ≠ '\n' := fun hh => hv (hh ▸ List.mem_cons_self y _)
    have hrec := squeeze_no_newline (y :: v2) hv
    simp [squeezeNewlines, hy, hrec]
  | [x], h, v, hv => by
    have hx : x ≠ '\n' := fun hh => h (hh ▸ List.mem_cons_self x _)
    have hrec := squeeze_single [] (by simp) v hv
    simp only [List.nil_append] at hrec
    simp [squeezeNewlines, hx, hrec]
  | x :: y :: u, h, v, hv => by
    have hx : x ≠ '\n' := fun hh => h (hh ▸ List.mem_cons_self x _)
    have hyu : '\n' ∉ y :: u := fun hh => h (List.mem_cons_of_mem x hh)
    have hrec := squeeze_single (y :: u) hyu v hv
    simp only [List.cons_append] at hrec ⊢
    simp [squeezeNewlines, hx, hrec]

theorem map_no_newline {u : List Char} (hu : '\n' ∉ u) :
    u.map (fun ch => if ch = '\n' then ' ' else ch) = u := by
  induction u with
  | nil => rfl
  | cons x u ih =>
    have hx : x ≠ '\n' := fun hh => hu (hh ▸ List.mem_cons_self x u)
    have hu2 : '\n' ∉ u := fun hh => hu (List.mem_cons_of_mem x hh)
    simp only [List.map_cons, if_neg hx, ih hu2]

/-- Claim C1: the `ne-code` inline handler collapses internal newline
runs to single spaces, uses a backtick fence one longer than the longest
backtick run of the collapsed content (minimum length 1), pads with
exactly one literal space on each side exactly when the content starts
or ends with a backtick or a space, and the chosen fence never occurs as
a literal substring of the unpadded content. -/
theorem c1_inline_code_fence_safety (s : String) :
    (neCodeInline s =
      (let raw := collapseNewlineRuns s.toList
       let fence := List.replicate (maxRun '`' raw + 1) '`'
       if needsPadding raw then String.mk (fence ++ ' ' :: (raw ++ ' ' :: fence))
       else String.mk (fence ++ raw ++ fence)))
    ∧ 1 ≤ maxRun '`' (collapseNewlineRuns s.toList) + 1
    ∧ ¬ (List.replicate (maxRun '`' (collapseNewlineRuns s.toList) + 1) '`' <:+:
          collapseNewlineRuns s.toList)
    ∧ (∀ u v : List Char, '\n' ∉ u →
        collapseNewlineRuns (u ++ '\n' :: '\n' :: v) = collapseNewlineRuns (u ++ '\n' :: v)
        ∧ ('\n' ∉ v → collapseNewlineRuns (u ++ '\n' :: v) = u ++ ' ' :: v)) := by
  refine ⟨rfl, Nat.le_add_left 1 _, ?_, ?_⟩
  · intro h
    have := replicate_infix_le_maxRun h
    omega
  · intro u v hu
    constructor
    · unfold collapseNewlineRuns
      rw [squeeze_pair_step u hu v]
    · intro hv
      unfold collapseNewlineRuns
      rw [squeeze_single u hu v hv]
      simp [map_no_newline hu, map_no_newline hv]

/-- Witness for C1 at concrete inputs: evaluates the handler on
a content with backticks and exercises the newline-collapse clauses. -/
theorem c1_inline_code_fence_safety_witness :
    (¬ (List.replicate (maxRun '`' (collapseNewlineRuns ("a``b").toList) + 1) '`' <:+:
          collapseNewlineRuns ("a``b").toList))
    ∧ collapseNewlineRuns ("x".toList ++ '\n' :: '\n' :: "y".toList)
        = collapseNewlineRuns ("x".toList ++ '\n' :: "y".toList)
    ∧ collapseNewlineRuns ("x".toList ++ '\n' :: "y".toList) = "x y".toList := by
  refine ⟨(c1_inline_code_fence_safety "a``b").2.2.1, ?_, ?_⟩
  · exact (((c1_inline_code_fence_safety "a``b").2.2.2 "x".toList "y".toList
      (by decide)).1)
  · exact (((c1_inline_code_fence_safety "a``b").2.2.2 "x".toList "y".toList
      (by decide)).2 (by decide))

/-! ## C2: table converter (`convertTableToMarkdown`)

JS source (src/unnamed/part_001 lines 1179-1253 and the identical copy
in src/xianzhi_crawler.js lines 1013-1087).  The JSDOM layer
(`querySelectorAll('tr, .ne-tr')`, `querySelectorAll('th, td, .ne-td')`,
and the recursive conversion of each cell's child nodes) is the external
parse; the model starts from its output: a list of rows, each a list of
cells carrying an explicit-header flag (`th`) and the Markdown collected
from the cell's children.  `cleanHtmlTags(content)` on the raw markup is
likewise passed in as the already-stripped text. -/

/-- One table cell: whether it is an explicit `th` cell, and the
Markdown produced by converting its child nodes. -/
structure TCell where
  isTh : Bool
  content : String
deriving DecidableEq

/-- Split a character list at newlines (JS `String.prototype.split('\n')`). -/
def splitNL : List Char → List (List Char)
  | [] => [[]]
  | c :: r =>
    if c = '\n' then [] :: splitNL r
    else
      match splitNL r with
      | [] => [[c]]
      | l :: ls => (c :: l) :: ls

/-- JS `trimEnd()` on one physical line. -/
def trimEndChars (l : List Char) : List Char :=
  (l.reverse.dropWhile Char.isWhitespace).reverse

/-- The `escapeCell` helper of `convertTableToMarkdown`: strip
zero-width/BOM characters, NBSP to space, normalize CR line endings,
escape pipes, trim each physical line's trailing whitespace and join the
lines with `<br>`. -/
def escapeCell (s : String) : String :=
  let noZW := s.toList.filter fun c => c ≠ Char.ofNat 0x200B ∧ c ≠ Char.ofNat 0xFEFF
  let noNB := noZW.map fun c => if c = Char.ofNat 0xA0 then ' ' else c
  let crToNl := noNB.foldr
    (fun c acc => if c = '\r' then
        match acc with
        | '\n' :: rest => '\n' :: rest
        | _ => '\n' :: acc
      else c :: acc) []
  let escaped := crToNl.foldr
    (fun c acc => if c = '|' then '\\' :: '|' :: acc else c :: acc) []
  String.mk (List.intercalate "<br>".toList ((splitNL escaped).map trimEndChars))

/-- A cell's rendered content: the collected cell Markdown with blank
runs collapsed (`replace(/\n{2,}/g, '\n')`, which is `squeezeNewlines`),
escaped, with the empty string replaced by a single space. -/
def renderCellContent (cellMd : String) : String :=
  let e := escapeCell (String.mk (squeezeNewlines cellMd.toList))
  if e = "" then " " else e

/-- One emitted physical table line, tagged with whether it is the
header separator row. -/
structure TLine where
  isSep : Bool
  text : String
deriving DecidableEq

/-- The Markdown line emitted for a row's cells. -/
def rowLine (cells : List TCell) : String :=
  "| " ++ String.intercalate " | " (cells.map fun c => renderCellContent c.content) ++ " |\n"

/-- The header separator line for `n` columns. -/
def sepLine (n : Nat) : String :=
  "| " ++ String.intercalate " | " (List.replicate n "---") ++ " |\n"

/-- The row loop of `convertTableToMarkdown`: `i` is the row index,
`headerEmitted` the separator flag.  A row with no cells is skipped; a
row is a header row if it has a `th` cell or it is row 0 with no header
emitted yet; the separator is emitted right after a header row when no
separator was emitted before. -/
def tableLines : List (List TCell) → Nat → Bool → List TLine
  | [], _, _ => []
  | row :: rest, i, headerEmitted =>
    if row.isEmpty then tableLines rest (i + 1) headerEmitted
    else
      let hasTh := row.any (·.isTh)
      let isHeaderRow := hasTh || (!headerEmitted && i == 0)
      if !headerEmitted && isHeaderRow then
        ⟨false, rowLine row⟩ :: ⟨true, sepLine row.length⟩ :: tableLines rest (i + 1) true
      else
        ⟨false, rowLine row⟩ :: tableLines rest (i + 1) headerEmitted

/-- The `markdown +=` accumulation over the emitted lines. -/
def concatTexts : List TLine → String
  | [] => ""
  | l :: ls => l.text ++ concatTexts ls

/-- `convertTableToMarkdown`: `rows` are the parsed `tr`/`.ne-tr` rows,
`cleaned` is `cleanHtmlTags(content)` of the raw inner markup. -/
def convertTableToMarkdown (rows : List (List TCell)) (cleaned : String) : String :=
  if rows.isEmpty then
    if cleaned ≠ "" then "\n```\n" ++ cleaned ++ "\n```\n" else ""
  else
    let md := concatTexts (tableLines rows 0 false)
    if md = "" then "\n```\n" ++ cleaned ++ "\n```\n" else md

/-- Number of cells rendered on an emitted physical table line:
pipe count minus one. -/
def lineCellCount (s : String) : Nat :=
  s.toList.count '|' - 1

/-- Claim C2 as stated fails on three counts, each at a concrete
table.  (1) Cell counts are not equalized: for the table with a
one-cell first row and a two-cell second row (which has at least one
row with at least one cell), the emitted data row has 2 cells while the
header row has 1.  (2) The separator is not guaranteed by the claim's
precondition: a table whose first row has zero cells, followed by a row
with one plain (non-`th`) cell, has a row with a cell yet emits no
separator row at all — row 0 is skipped and row 1 fails the
`hasTh || i === 0` header test.  (3) A table with no rows whose raw
markup strips to empty text produces empty output, not a code fence. -/
theorem c2_counterexample :
    (convertTableToMarkdown [[⟨false, "a"⟩], [⟨false, "b"⟩, ⟨false, "c"⟩]] "x"
        = "| a |\n| --- |\n| b | c |\n"
      ∧ (tableLines [[⟨false, "a"⟩], [⟨false, "b"⟩, ⟨false, "c"⟩]] 0 false).map (·.text)
          = ["| a |\n", "| --- |\n", "| b | c |\n"]
      ∧ lineCellCount "| b | c |\n" ≠ lineCellCount "| a |\n")
    ∧ (convertTableToMarkdown [[], [⟨false, "b"⟩]] "x" = "| b |\n"
      ∧ (tableLines [[], [⟨false, "b"⟩]] 0 false).map (·.isSep) = [false])
    ∧ convertTableToMarkdown [] "" = "" := by
  refine ⟨⟨?_, ?_, ?_⟩, ⟨?_, ?_⟩, ?_⟩ <;> decide

theorem tableLines_emitted_no_sep :
    ∀ (rows : List (List TCell)) (i : Nat),
      ∀ l ∈ tableLines rows i true, l.isSep = false := by
  intro rows
  induction rows with
  | nil => intro i l hl; simp [tableLines] at hl
  | cons row rest ih =>
    intro i l hl
    by_cases he : row.isEmpty
    · rw [tableLines, if_pos he] at hl
      exact ih (i + 1) l hl
    · rw [tableLines, if_neg he] at hl
      simp only [Bool.not_true, Bool.false_and, Bool.false_eq_true, if_false,
        List.mem_cons] at hl
      rcases hl with h1 | h2
      · rw [h1]
      · exact ih (i + 1) l h2

theorem rowLine_length (cells : List TCell) :
    (rowLine cells).length =
      2 + (String.intercalate " | " (cells.map fun c => renderCellContent c.content)).length
        + 3 := by
  rw [rowLine]
  have h1 : "| ".length = 2 := rfl
  have h2 : " |\n".length = 3 := rfl
  simp only [String.length_append, h1, h2]

/-- Claim C2, amended.  For tables whose first row has at least one
cell, exactly one separator row is emitted, immediately after the first
emitted row, and never again; rows with zero cells emit no output line;
a table with no rows falls back to the text-stripped code fence when the
stripped text is non-empty (and to empty output otherwise).  Data rows
keep their own cell counts — they are not equalized with the header. -/
theorem c2_table_separator_amended (r : List TCell) (rest rows : List (List TCell))
    (i : Nat) (he : Bool) (cleaned : String) (hr : r ≠ []) (hc : cleaned ≠ "") :
    tableLines (r :: rest) 0 false
        = ⟨false, rowLine r⟩ :: ⟨true, sepLine r.length⟩ :: tableLines rest 1 true
    ∧ (∀ l ∈ tableLines rest 1 true, l.isSep = false)
    ∧ convertTableToMarkdown (r :: rest) cleaned
        = rowLine r ++ (sepLine r.length ++ concatTexts (tableLines rest 1 true))
    ∧ tableLines ([] :: rows) i he = tableLines rows (i + 1) he
    ∧ convertTableToMarkdown [] cleaned = "\n```\n" ++ cleaned ++ "\n```\n"
    ∧ convertTableToMarkdown [] "" = "" := by
  have hne : ¬ r.isEmpty := by
    cases r with
    | nil => exact absurd rfl hr
    | cons a b => simp
  have htrace : tableLines (r :: rest) 0 false
      = ⟨false, rowLine r⟩ :: ⟨true, sepLine r.length⟩ :: tableLines rest 1 true := by
    rw [tableLines, if_neg hne]
    simp
  have hcat : concatTexts (tableLines (r :: rest) 0 false)
      = rowLine r ++ (sepLine r.length ++ concatTexts (tableLines rest 1 true)) := by
    rw [htrace]
    rfl
  refine ⟨htrace, tableLines_emitted_no_sep rest 1, ?_, ?_, ?_, by decide⟩
  · rw [convertTableToMarkdown]
    rw [if_neg (by simp)]
    simp only [hcat]
    rw [if_neg ?_]
    · intro hcontra
      have hlen := congrArg String.length hcontra
      simp only [String.length_append] at hlen
      have hrow := rowLine_length r
      have hz : ("" : String).length = 0 := rfl
      rw [hz] at hlen
      omega
  · rfl
  · show (if cleaned ≠ "" then "\n```\n" ++ cleaned ++ "\n```\n" else "")
        = "\n```\n" ++ cleaned ++ "\n```\n"
    exact if_pos hc

/-- Witness for the amended C2 theorem at a concrete table. -/
theorem c2_table_separator_amended_witness :
    tableLines [[⟨true, "h"⟩], [⟨false, "d"⟩]] 0 false
        = ⟨false, rowLine [⟨true, "h"⟩]⟩ :: ⟨true, sepLine 1⟩
            :: tableLines [[⟨false, "d"⟩]] 1 true
    ∧ convertTableToMarkdown [] "raw" = "\n```\nraw\n```\n"
    ∧ convertTableToMarkdown [] "" = "" :=
  ⟨(c2_table_separator_amended [⟨true, "h"⟩] [[⟨false, "d"⟩]] [] 0 false "raw"
      (by decide) (by decide)).1,
   (c2_table_separator_amended [⟨true, "h"⟩] [[⟨false, "d"⟩]] [] 0 false "raw"
      (by decide) (by decide)).2.2.2.2.1,
   (c2_table_separator_amended [⟨true, "h"⟩] [[⟨false, "d"⟩]] [] 0 false "raw"
      (by decide) (by decide)).2.2.2.2.2⟩

/-! ## Crawl orchestrator model (C3, C4, C5, C6, C9)

The orchestrator (`XianzhiCrawler.scrapeArticles` in
src/unnamed/part_001, lines 78-221, with its helpers
`fetchArticleContentWithRetry`, `saveArticleImmediately`,
`generateFileName` and the constructor defaults at lines 10-31).  The
browser is abstracted as data: a page is a list of listing entries, and
the detail fetch is a capability `link → attempt index → ArticleData`
(successive real-world calls may differ, hence the attempt index).
`new Date(...)` string parsing is modelled by `parseTime` on the
`YYYY-M-D[ H:MM]` shapes the crawler's listing regex extracts, mapped
monotonically to a minute rank; an unparseable string is `none`
(JS Invalid Date, whose comparisons are all false).  The JS worker pool
is cooperative single-threaded concurrency whose dedup check-and-insert
runs without interleaving awaits, so a run is modelled as the sequential
fold over the page's filtered entries.  Signals are ignored
(`aborted = false` throughout).  `generateSingleArticleMarkdown` has a
locale-formatted timestamp footer and `sha1` is a crypto primitive, so
both are parameters (`gen`, `hashFn`) of the model. -/

/-- One listing entry (`extractArticleInfo` result). -/
structure Entry where
  title : String
  link : String
  publishTime : String
  category : String
  author : String
  content : String
deriving DecidableEq

/-- Result of one detail-page fetch (`fetchArticleContent`). -/
structure ArticleData where
  title : String
  content : String
deriving DecidableEq

/-- `{link, title, error}` pushed when retries are exhausted. -/
structure FailureRecord where
  link : String
  title : String
  error : String
deriving DecidableEq

/-- Crawler run state: dedup key set, persisted article list, failure
list, and the `papers/` directory as an association list. -/
structure CrawlState where
  seen : List String
  articles : List Entry
  failures : List FailureRecord
  fsFiles : List (String × String)
deriving DecidableEq

/-- `needle` occurs as a substring of `hay` (JS regex `.test`). -/
def containsSub (needle hay : String) : Bool :=
  decide (needle.toList <:+: hay.toList)

/-- A fetch result that the retry wrapper treats as failed:
`!res || res.title === '访问失败' || !res.content ||
/无法获取文章内容|提取文章内容失败/i.test(res.content)`. -/
def looksFailed (d : ArticleData) : Bool :=
  d.title == "访问失败" || d.content == "" ||
    containsSub "无法获取文章内容" d.content ||
    containsSub "提取文章内容失败" d.content

/-- The thrown message when an attempt fails:
`res && res.title ? res.title : '抓取失败'`. -/
def errMsg (d : ArticleData) : String :=
  if d.title = "" then "抓取失败" else d.title

/-- The retry loop of `fetchArticleContentWithRetry` (part_001 lines
326-346): `attempt` is the current attempt index, the second argument
the remaining retry budget (`retries - attempt`).  Returns the outcome
and the list of backoff delays slept (`baseDelay * 2 ^ attempt` before
each retry; no sleep after the last failed attempt). -/
def fetchRetryGo (f : Nat → ArticleData) (baseDelay : Nat) :
    Nat → Nat → Except String ArticleData × List Nat
  | attempt, 0 =>
    let res := f attempt
    if looksFailed res then (Except.error (errMsg res), []) else (Except.ok res, [])
  | attempt, r + 1 =>
    let res := f attempt
    if looksFailed res then
      let next := fetchRetryGo f baseDelay (attempt + 1) r
      (next.1, baseDelay * 2 ^ attempt :: next.2)
    else (Except.ok res, [])

/-- `fetchArticleContentWithRetry(url, retries = 1, baseDelay = 800)`. -/
def fetchArticleContentWithRetry (f : Nat → ArticleData)
    (retries : Nat := 1) (baseDelay : Nat := 800) :
    Except String ArticleData × List Nat :=
  fetchRetryGo f baseDelay 0 retries

/-- JS `String.prototype.trim()` (structural, so that concrete runs
reduce in the kernel). -/
def jsTrim (s : String) : String :=
  String.mk
    (((s.toList.dropWhile Char.isWhitespace).reverse.dropWhile
      Char.isWhitespace).reverse)

/-- Dedup key: `(item.link && item.link.trim()) ||
`${(item.title || '').trim()}|${item.publishTime || ''}``. -/
def entryKey (e : Entry) : String :=
  if jsTrim e.link ≠ "" then jsTrim e.link
  else jsTrim e.title ++ "|" ++ e.publishTime

/-- Characters stripped by `replace(/[<>:"/\\|?*]/g, '')`. -/
def isUnsafeChar (c : Char) : Bool :=
  c = '<' || c = '>' || c = ':' || c = '"' || c = '/' || c = '\\' ||
    c = '|' || c = '?' || c = '*'

/-- Characters folded to underscores by
`replace(/[\s()（）\[\]【】]/g, '_')`. -/
def isSpaceOrBracket (c : Char) : Bool :=
  c.isWhitespace || c = '(' || c = ')' || c = '[' || c = ']' ||
    c = Char.ofNat 0xFF08 || c = Char.ofNat 0xFF09 ||
    c = Char.ofNat 0x3010 || c = Char.ofNat 0x3011

/-- `replace(/_+/g, '_')`: collapse each underscore run to one. -/
def collapseUnderscores : List Char → List Char
  | [] => []
  | [a] => [a]
  | a :: b :: r =>
    if a = '_' ∧ b = '_' then collapseUnderscores (b :: r)
    else a :: collapseUnderscores (b :: r)

/-- `replace(/^_|_$/g, '')` removes one leading underscore. -/
def dropLeadUnderscore : List Char → List Char
  | '_' :: r => r
  | l => l

/-- ... and one trailing underscore. -/
def dropTrailUnderscore (l : List Char) : List Char :=
  (dropLeadUnderscore l.reverse).reverse

/-- `generateFileName` (part_001 lines 647-664).  `hashFn` models the
`sha1` hex digest used in the empty-name fallback. -/
def generateFileName (hashFn : String → String) (e : Entry) : String :=
  let safeTitle := jsTrim e.title
  let noUnsafe := safeTitle.toList.filter fun c => ¬ isUnsafeChar c
  let underscored := noUnsafe.map fun c => if isSpaceOrBracket c then '_' else c
  let collapsed := collapseUnderscores underscored
  let trimmed := dropTrailUnderscore (dropLeadUnderscore collapsed)
  let fileName := String.mk (trimmed.take 80)
  if fileName = "" then
    "article_" ++ String.mk ((hashFn (if e.link = "" then "unknown" else e.link)).toList.take 12)
      ++ ".md"
  else fileName ++ ".md"

/-- Look up a file's content in the modelled `papers/` directory. -/
def lookupFile (fsFiles : List (String × String)) (name : String) : Option String :=
  (fsFiles.find? fun p => p.1 = name).map (·.2)

/-- `saveArticleImmediately` (part_001 lines 548-573): if the target
file exists, skip the write; either way return the file name as
success.  `gen` models `generateSingleArticleMarkdown`. -/
def saveArticleImmediately (hashFn : String → String) (gen : Entry → String)
    (fsFiles : List (String × String)) (e : Entry) :
    List (String × String) × Option String :=
  let fileName := generateFileName hashFn e
  match lookupFile fsFiles fileName with
  | some _ => (fsFiles, some fileName)
  | none => (fsFiles ++ [(fileName, gen e)], some fileName)

/-- The in-place refinement of a listing entry after a successful
detail fetch: content is set, the title replaced when the fetched title
is non-empty and not a sentinel. -/
def refreshedEntry (e : Entry) (d : ArticleData) : Entry :=
  { e with
    content := d.content,
    title :=
      if d.title ≠ "" ∧ d.title ≠ "未知标题" ∧ d.title ≠ "访问失败" then d.title
      else e.title }

/-- Failure-record title: `(item.title || '').trim() || '未知标题'`. -/
def failTitle (e : Entry) : String :=
  if jsTrim e.title = "" then "未知标题" else jsTrim e.title

/-- Processing of one filtered listing entry by a worker (part_001
lines 123-160): dedup check, fetch with retry, save, re-check and
count; a fetch error appends one failure record and moves on. -/
def processEntry (fetch : String → Nat → ArticleData) (hashFn : String → String)
    (gen : Entry → String) (retries baseDelay : Nat)
    (s : CrawlState) (e : Entry) : CrawlState :=
  let key := entryKey e
  if key ∈ s.seen then s
  else
    match (fetchRetryGo (fetch e.link) baseDelay 0 retries).1 with
    | Except.error msg =>
      { s with failures := s.failures ++ [⟨e.link, failTitle e, msg⟩] }
    | Except.ok d =>
      let e2 := refreshedEntry e d
      let saved := saveArticleImmediately hashFn gen s.fsFiles e2
      match saved.2 with
      | some _ =>
        if key ∈ s.seen then { s with fsFiles := saved.1 }
        else { s with
          fsFiles := saved.1,
          seen := key :: s.seen,
          articles := s.articles ++ [e2] }
      | none => { s with fsFiles := saved.1 }

/-- A page's filtered entries processed in order (the cooperative pool's
dedup-and-insert sections do not interleave). -/
def processEntries (fetch : String → Nat → ArticleData) (hashFn : String → String)
    (gen : Entry → String) (retries baseDelay : Nat)
    (s : CrawlState) (entries : List Entry) : CrawlState :=
  entries.foldl (processEntry fetch hashFn gen retries baseDelay) s

/-- The crawl window configuration after the constructor (part_001
lines 13-15): `targetDate` defaults to `startDate` when absent.
Dates are already-parsed minute ranks. -/
structure CrawlCfg where
  startDate : Option Nat
  endDate : Option Nat
  targetDate : Option Nat
deriving DecidableEq

/-- The constructor's date wiring:
`this.targetDate = options.targetDate ? ... : (this.startDate || null)`. -/
def mkCrawlCfg (s e t : Option Nat) : CrawlCfg :=
  ⟨s, e, t.orElse fun _ => s⟩

/-- Split a character list at a separator character. -/
def splitOnChar (sep : Char) : List Char → List (List Char)
  | [] => [[]]
  | c :: r =>
    if c = sep then [] :: splitOnChar sep r
    else
      match splitOnChar sep r with
      | [] => [[c]]
      | l :: ls => (c :: l) :: ls

/-- All-digit character list to a number. -/
def digitsToNat? (l : List Char) : Option Nat :=
  if l ≠ [] ∧ l.all Char.isDigit then
    some (l.foldl (fun a c => a * 10 + (c.toNat - 48)) 0)
  else none

/-- Strictly monotone rank of a timestamp. -/
def dateRank (y m d h mi : Nat) : Nat :=
  (((y * 13 + m) * 32 + d) * 24 + h) * 60 + mi

/-- Model of `new Date(str)` on the `YYYY-M-D` / `YYYY-M-D H:MM`
strings the crawler's listing regex produces; `none` is JS Invalid
Date, all of whose comparisons are false. -/
def parseTime (s : String) : Option Nat :=
  match splitOnChar '-' s.toList with
  | [ys, ms, rest] =>
    match (splitOnChar ' ' rest).filter (fun t => t ≠ []) with
    | [ds] =>
      match digitsToNat? ys, digitsToNat? ms, digitsToNat? ds with
      | some y, some m, some d => some (dateRank y m d 0 0)
      | _, _, _ => none
    | [ds, hm] =>
      match splitOnChar ':' hm with
      | [hs, mis] =>
        match digitsToNat? ys, digitsToNat? ms, digitsToNat? ds,
            digitsToNat? hs, digitsToNat? mis with
        | some y, some m, some d, some h, some mi => some (dateRank y m d h mi)
        | _, _, _, _, _ => none
      | _ => none
    | _ => none
  | _ => none

/-- The time-window filter of `scrapeArticles` (part_001 lines
101-116): drop empty timestamps; inclusive range bounds when
`startDate`/`endDate` are set; strictly-after `targetDate` only when
neither range bound is set; Invalid-Date comparisons are false. -/
def keepEntry (cfg : CrawlCfg) (e : Entry) : Bool :=
  if e.publishTime = "" then false
  else
    let d := parseTime e.publishTime
    let i1 := match cfg.startDate with
      | none => true
      | some sd => match d with
        | some x => decide (sd ≤ x)
        | none => false
    let i2 := match cfg.endDate with
      | none => true
      | some ed => match d with
        | some x => decide (x ≤ ed)
        | none => false
    let i3 :=
      if cfg.startDate.isNone && cfg.endDate.isNone then
        match cfg.targetDate with
        | none => true
        | some td => match d with
          | some x => decide (td < x)
          | none => false
      else true
    i1 && i2 && i3

/-- `const thresholdDate = this.startDate || this.targetDate || null`. -/
def thresholdDate (cfg : CrawlCfg) : Option Nat :=
  cfg.startDate.orElse fun _ => cfg.targetDate

/-- `hasOlderArticles`: some entry on the (unfiltered) page parses and
is at-or-before the threshold (part_001 lines 196-205). -/
def hasOlderArticles (cfg : CrawlCfg) (page : List Entry) : Bool :=
  match thresholdDate cfg with
  | none => false
  | some thr => page.any fun a =>
      if a.publishTime = "" then false
      else match parseTime a.publishTime with
        | some d => decide (d ≤ thr)
        | none => false

/-- Observable trace of one crawl run: final state, 1-based page
numbers whose entries were pulled, and the page numbers after which
`goToNextPage` was requested. -/
structure CrawlTrace where
  state : CrawlState
  visited : List Nat
  nextRequests : List Nat
deriving DecidableEq

/-- The page loop of `scrapeArticles` (part_001 lines 85-218): stop on
page budget, on an empty page, on the boundary heuristic
(`hasOlderArticles && currentPage > 3`), or when no further page
exists; otherwise request the next page and continue. -/
def scrapeGo (fetch : String → Nat → ArticleData) (hashFn : String → String)
    (gen : Entry → String) (retries baseDelay : Nat)
    (cfg : CrawlCfg) (maxPages : Nat) :
    List (List Entry) → Nat → CrawlState → CrawlTrace
  | [], _, s => ⟨s, [], []⟩
  | page :: rest, cur, s =>
    if maxPages < cur then ⟨s, [], []⟩
    else if page.isEmpty then ⟨s, [cur], []⟩
    else
      let s2 := processEntries fetch hashFn gen retries baseDelay s
        (page.filter (keepEntry cfg))
      if hasOlderArticles cfg page && decide (3 < cur) then ⟨s2, [cur], []⟩
      else
        let t := scrapeGo fetch hashFn gen retries baseDelay cfg maxPages rest
          (cur + 1) s2
        ⟨t.state, cur :: t.visited, cur :: t.nextRequests⟩

/-- A whole run from page 1 on a fresh state. -/
def scrapeArticles (fetch : String → Nat → ArticleData) (hashFn : String → String)
    (gen : Entry → String) (retries baseDelay : Nat)
    (cfg : CrawlCfg) (maxPages : Nat) (pages : List (List Entry)) : CrawlTrace :=
  scrapeGo fetch hashFn gen retries baseDelay cfg maxPages pages 1 ⟨[], [], [], []⟩

/-! ### C4: retry with exponential backoff, partial-failure isolation -/

theorem fetchRetryGo_delays_le (f : Nat → ArticleData) (b : Nat) :
    ∀ (rem a : Nat), (fetchRetryGo f b a rem).2.length ≤ rem
  | 0, a => by
    by_cases h : looksFailed (f a) <;> simp [fetchRetryGo, h]
  | rem + 1, a => by
    by_cases h : looksFailed (f a)
    · have hrec := fetchRetryGo_delays_le f b rem (a + 1)
      simp only [fetchRetryGo, h, if_true, List.length_cons]
      omega
    · simp [fetchRetryGo, h]

theorem fetchRetryGo_ok (f : Nat → ArticleData) (b : Nat) :
    ∀ (k rem a : Nat), (∀ i, i < k → looksFailed (f (a + i)) = true) →
      looksFailed (f (a + k)) = false → k ≤ rem →
      fetchRetryGo f b a rem
        = (Except.ok (f (a + k)), (List.range k).map fun i => b * 2 ^ (a + i))
  | 0, rem, a, _, hok, _ => by
    rw [Nat.add_zero] at hok
    cases rem <;> simp [fetchRetryGo, hok]
  | k + 1, rem, a, hfail, hok, hle => by
    cases rem with
    | zero => omega
    | succ r =>
      have h0 : looksFailed (f a) = true := by
        have := hfail 0 (Nat.succ_pos k)
        rwa [Nat.add_zero] at this
      have hrec := fetchRetryGo_ok f b k r (a + 1)
        (fun i hi => by
          have := hfail (i + 1) (by omega)
          rwa [show a + (i + 1) = a + 1 + i by omega] at this)
        (by rwa [show a + 1 + k = a + (k + 1) by omega])
        (by omega)
      simp only [fetchRetryGo, h0, if_true, hrec]
      refine Prod.ext ?_ ?_
      · show Except.ok (f (a + 1 + k)) = Except.ok (f (a + (k + 1)))
        rw [show a + 1 + k = a + (k + 1) by omega]
      · show b * 2 ^ a :: (List.range k).map (fun i => b * 2 ^ (a + 1 + i))
            = (List.range (k + 1)).map fun i => b * 2 ^ (a + i)
        rw [List.range_succ_eq_map, List.map_cons, List.map_map]
        refine congrArg₂ _ (by rw [Nat.add_zero]) ?_
        refine List.map_congr_left fun i _ => ?_
        show b * 2 ^ (a + 1 + i) = b * 2 ^ (a + (i + 1))
        rw [show a + 1 + i = a + (i + 1) by omega]

theorem fetchRetryGo_allFail (f : Nat → ArticleData) (b : Nat) :
    ∀ (rem a : Nat), (∀ i, looksFailed (f (a + i)) = true) →
      fetchRetryGo f b a rem
        = (Except.error (errMsg (f (a + rem))),
            (List.range rem).map fun i => b * 2 ^ (a + i))
  | 0, a, h => by
    have h0 := h 0
    rw [Nat.add_zero] at h0
    simp [fetchRetryGo, h0]
  | rem + 1, a, h => by
    have h0 := h 0
    rw [Nat.add_zero] at h0
    have hrec := fetchRetryGo_allFail f b rem (a + 1) fun i => by
      have := h (i + 1)
      rwa [show a + (i + 1) = a + 1 + i by omega] at this
    simp only [fetchRetryGo, h0, if_true, hrec]
    refine Prod.ext ?_ ?_
    · show Except.error (errMsg (f (a + 1 + rem))) = Except.error (errMsg (f (a + (rem + 1))))
      rw [show a + 1 + rem = a + (rem + 1) by omega]
    · show b * 2 ^ a :: (List.range rem).map (fun i => b * 2 ^ (a + 1 + i))
          = (List.range (rem + 1)).map fun i => b * 2 ^ (a + i)
      rw [List.range_succ_eq_map, List.map_cons, List.map_map]
      refine congrArg₂ _ (by rw [Nat.add_zero]) ?_
      refine List.map_congr_left fun i _ => ?_
      show b * 2 ^ (a + 1 + i) = b * 2 ^ (a + (i + 1))
      rw [show a + 1 + i = a + (i + 1) by omega]

theorem processEntry_allFail (fetch : String → Nat → ArticleData)
    (hashFn : String → String) (gen : Entry → String) (retries b : Nat)
    (s : CrawlState) (e : Entry)
    (hall : ∀ i, looksFailed (fetch e.link i) = true)
    (hkey : entryKey e ∉ s.seen) :
    processEntry fetch hashFn gen retries b s e
      = { s with failures :=
            s.failures ++ [⟨e.link, failTitle e, errMsg (fetch e.link retries)⟩] } := by
  have hfetch := fetchRetryGo_allFail (fetch e.link) b retries 0 fun i => by
    simpa using hall i
  rw [processEntry]
  simp only [if_neg hkey, hfetch]
  rw [Nat.zero_add]

/-- Claim C4: the fetch retry wrapper makes at most `retries + 1`
attempts (so 2 with the default budget of 1); each failed-looking
attempt that still has budget sleeps `baseDelay * 2 ^ attempt` before
the next try; a capability failing on attempts 0 and 1 but succeeding
on attempt 2 yields the successful record whenever `retries ≥ 2`; and a
capability that always fails makes the orchestrator append exactly one
FailureRecord for that entry and continue with the remaining entries. -/
theorem c4_retry_backoff_failure_isolation
    (fetch : String → Nat → ArticleData) (hashFn : String → String)
    (gen : Entry → String) (f : Nat → ArticleData) (b retries : Nat)
    (e : Entry) (rest : List Entry) (s : CrawlState)
    (hf0 : looksFailed (f 0) = true) (hf1 : looksFailed (f 1) = true)
    (hf2 : looksFailed (f 2) = false) (hr2 : 2 ≤ retries)
    (hall : ∀ i, looksFailed (fetch e.link i) = true)
    (hkey : entryKey e ∉ s.seen) :
    (fetchArticleContentWithRetry f 1 b).2.length + 1 ≤ 2
    ∧ (∀ k, (∀ i, i < k → looksFailed (f i) = true) → looksFailed (f k) = false →
        k ≤ retries →
        fetchRetryGo f b 0 retries
          = (Except.ok (f k), (List.range k).map fun i => b * 2 ^ i))
    ∧ (fetchRetryGo f b 0 retries).1 = Except.ok (f 2)
    ∧ processEntries fetch hashFn gen retries b s (e :: rest)
        = processEntries fetch hashFn gen retries b
            { s with failures :=
                s.failures ++ [⟨e.link, failTitle e, errMsg (fetch e.link retries)⟩] }
            rest := by
  have hgen : ∀ k, (∀ i, i < k → looksFailed (f i) = true) →
      looksFailed (f k) = false → k ≤ retries →
      fetchRetryGo f b 0 retries
        = (Except.ok (f k), (List.range k).map fun i => b * 2 ^ i) := by
    intro k hlt hk hle
    have := fetchRetryGo_ok f b k retries 0
      (fun i hi => by rw [Nat.zero_add]; exact hlt i hi)
      (by rw [Nat.zero_add]; exact hk) hle
    rw [this]
    refine Prod.ext ?_ ?_
    · show Except.ok (f (0 + k)) = Except.ok (f k)
      rw [Nat.zero_add]
    · show List.map (fun i => b * 2 ^ (0 + i)) (List.range k)
          = List.map (fun i => b * 2 ^ i) (List.range k)
      exact List.map_congr_left fun i _ => by rw [Nat.zero_add]
  refine ⟨?_, hgen, ?_, ?_⟩
  · have := fetchRetryGo_delays_le f b 1 0
    rw [fetchArticleContentWithRetry]
    omega
  · rw [hgen 2 (fun i hi => by interval_cases i <;> assumption) hf2 hr2]
  · rw [processEntries, List.foldl_cons,
      processEntry_allFail fetch hashFn gen retries b s e hall hkey]
    rfl

/-- Concrete capability failing twice then succeeding, and an
always-failing one: instantiates C4. -/
def c4fTwice : Nat → ArticleData := fun i =>
  if i < 2 then ⟨"访问失败", ""⟩ else ⟨"Recovered title", "recovered body"⟩

def c4fNever : String → Nat → ArticleData := fun _ _ => ⟨"访问失败", ""⟩

def c4Entry : Entry :=
  ⟨"Doomed article", "https://xz.aliyun.com/news/404", "2025-05-01 10:00", "", "", ""⟩

/-- Witness for C4 at concrete inputs. -/
theorem c4_retry_backoff_failure_isolation_witness :
    (fetchArticleContentWithRetry c4fTwice 1 800).2.length + 1 ≤ 2
    ∧ (fetchRetryGo c4fTwice 800 0 2).1 = Except.ok (c4fTwice 2)
    ∧ processEntries c4fNever (fun h => h) (fun e => e.title) 2 800
          ⟨[], [], [], []⟩ [c4Entry]
        = processEntries c4fNever (fun h => h) (fun e => e.title) 2 800
            ⟨[], [], [⟨c4Entry.link, failTitle c4Entry,
                errMsg (c4fNever c4Entry.link 2)⟩], []⟩ [] := by
  have h := c4_retry_backoff_failure_isolation c4fNever (fun h => h)
    (fun e => e.title) c4fTwice 800 2 c4Entry [] ⟨[], [], [], []⟩
    (by decide) (by decide) (by decide) (by decide)
    (fun _ => rfl) (by decide)
  exact ⟨h.1, h.2.2.1, h.2.2.2⟩

/-! ### C3: deduplication invariant -/

/-- No two persisted records share an identity key. -/
def keysDistinct (s : CrawlState) : Prop :=
  s.articles.Pairwise fun a b => entryKey a ≠ entryKey b

/-- Every persisted record's identity key is in the seen set. -/
def seenClosed (s : CrawlState) : Prop :=
  ∀ a ∈ s.articles, entryKey a ∈ s.seen

theorem entryKey_refreshed (e : Entry) (d : ArticleData)
    (h : jsTrim e.link ≠ "") :
    entryKey (refreshedEntry e d) = entryKey e := by
  rw [entryKey, entryKey]
  simp [refreshedEntry, h]

theorem save_snd (hashFn : String → String) (gen : Entry → String)
    (fsFiles : List (String × String)) (e : Entry) :
    (saveArticleImmediately hashFn gen fsFiles e).2
      = some (generateFileName hashFn e) := by
  rw [saveArticleImmediately]
  cases lookupFile fsFiles (generateFileName hashFn e) <;> rfl

theorem processEntry_articles_seen (fetch : String → Nat → ArticleData)
    (hashFn : String → String) (gen : Entry → String) (retries b : Nat)
    (s : CrawlState) (e : Entry) :
    (processEntry fetch hashFn gen retries b s e).articles = s.articles
      ∧ (processEntry fetch hashFn gen retries b s e).seen = s.seen
    ∨ entryKey e ∉ s.seen
      ∧ (processEntry fetch hashFn gen retries b s e).articles = s.articles
      ∧ (processEntry fetch hashFn gen retries b s e).seen = s.seen
    ∨ ∃ d, entryKey e ∉ s.seen
      ∧ (processEntry fetch hashFn gen retries b s e).articles
          = s.articles ++ [refreshedEntry e d]
      ∧ (processEntry fetch hashFn gen retries b s e).seen = entryKey e :: s.seen := by
  rw [processEntry]
  by_cases hc : entryKey e ∈ s.seen
  · left
    simp [hc]
  · simp only [if_neg hc]
    cases hf : (fetchRetryGo (fetch e.link) b 0 retries).1 with
    | error msg =>
      right; left
      exact ⟨hc, rfl, rfl⟩
    | ok d =>
      right; right
      refine ⟨d, hc, ?_, ?_⟩ <;>
        simp [save_snd, if_neg hc]

theorem processEntry_inv (fetch : String → Nat → ArticleData)
    (hashFn : String → String) (gen : Entry → String) (retries b : Nat)
    (s : CrawlState) (e : Entry) (hlink : jsTrim e.link ≠ "")
    (hkd : keysDistinct s) (hsc : seenClosed s) :
    keysDistinct (processEntry fetch hashFn gen retries b s e)
      ∧ seenClosed (processEntry fetch hashFn gen retries b s e) := by
  rcases processEntry_articles_seen fetch hashFn gen retries b s e with
    ⟨ha, hs⟩ | ⟨_, ha, hs⟩ | ⟨d, hmem, ha, hs⟩
  · rw [keysDistinct, seenClosed, ha, hs]
    exact ⟨hkd, hsc⟩
  · rw [keysDistinct, seenClosed, ha, hs]
    exact ⟨hkd, hsc⟩
  · constructor
    · rw [keysDistinct, ha]
      rw [List.pairwise_append]
      refine ⟨hkd, List.pairwise_singleton _ _, ?_⟩
      intro a hain b hbin
      have hb : b = refreshedEntry e d := List.mem_singleton.mp hbin
      rw [hb, entryKey_refreshed e d hlink]
      intro hcontra
      exact hmem (hcontra ▸ hsc a hain)
    · rw [seenClosed, ha, hs]
      intro a hain
      rcases List.mem_append.mp hain with h1 | h2
      · exact List.mem_cons_of_mem _ (hsc a h1)
      · have : a = refreshedEntry e d := List.mem_singleton.mp h2
        rw [this, entryKey_refreshed e d hlink]
        exact List.mem_cons_self _ _

theorem processEntries_inv (fetch : String → Nat → ArticleData)
    (hashFn : String → String) (gen : Entry → String) (retries b : Nat) :
    ∀ (entries : List Entry) (s : CrawlState),
      (∀ e ∈ entries, jsTrim e.link ≠ "") → keysDistinct s → seenClosed s →
      keysDistinct (processEntries fetch hashFn gen retries b s entries)
        ∧ seenClosed (processEntries fetch hashFn gen retries b s entries)
  | [], s, _, hkd, hsc => ⟨hkd, hsc⟩
  | e :: rest, s, hl, hkd, hsc => by
    have he : jsTrim e.link ≠ "" := hl e (List.mem_cons_self e rest)
    have hstep := processEntry_inv fetch hashFn gen retries b s e he hkd hsc
    have := processEntries_inv fetch hashFn gen retries b rest
      (processEntry fetch hashFn gen retries b s e)
      (fun x hx => hl x (List.mem_cons_of_mem e hx)) hstep.1 hstep.2
    simpa [processEntries] using this

/-- Entries and capabilities exercising the dedup logic. -/
def cFetch : String → Nat → ArticleData := fun _ _ =>
  ⟨"Fetched detail title", "some article body"⟩

def cHash : String → String := fun s => s

def cGen : Entry → String := fun e => "# " ++ e.title

def cE1 : Entry :=
  ⟨"Alpha article one", "https://xz.aliyun.com/news/1", "2025-05-01 10:00",
    "web", "u1", ""⟩

def cE2 : Entry :=
  ⟨"Beta article two", "https://xz.aliyun.com/news/2", "2025-05-02 11:00",
    "web", "u2", ""⟩

/-- Claim C3 as stated is false: with empty links, the detail fetch can
refresh two different listing titles to the same stored title, so two
appended records end up sharing the identity key computed from their
stored fields.  Concretely, two entries with empty links and titles
"First draft title" / "Refreshed title", same publish time, both pass
the dedup check (their discovery keys differ), but the stored records
both carry the fetched title, so their identity keys coincide. -/
def xE1 : Entry := ⟨"First draft title", "", "2025-01-01 10:00", "catA", "", ""⟩

def xE2 : Entry := ⟨"Refreshed title", "", "2025-01-01 10:00", "catB", "", ""⟩

def xFetch : String → Nat → ArticleData := fun _ _ =>
  ⟨"Refreshed title", "body text"⟩

theorem c3_counterexample :
    (processEntries xFetch cHash cGen 1 800 ⟨[], [], [], []⟩ [xE1, xE2]).articles.map entryKey
        = ["Refreshed title|2025-01-01 10:00", "Refreshed title|2025-01-01 10:00"]
    ∧ (processEntries xFetch cHash cGen 1 800 ⟨[], [], [], []⟩ [xE1, xE2]).articles.map
          (fun a => a.category) = ["catA", "catB"]
    ∧ ¬ keysDistinct (processEntries xFetch cHash cGen 1 800 ⟨[], [], [], []⟩ [xE1, xE2]) := by
  refine ⟨by decide, by decide, ?_⟩
  rw [keysDistinct]
  decide

/-- Claim C3, amended: identity keys are the discovery-time keys (the
trimmed link when non-empty, else pre-fetch title + "|" + publishTime).
When every processed entry has a non-empty trimmed link — so the key
cannot drift when the fetch refines the title — no two records appended
to the persisted list in one run share an identity key, and an entry
whose key was already seen (including the same (link, publishTime) pair
repeated on a later page) is skipped without being counted again. -/
theorem c3_dedup_amended (fetch : String → Nat → ArticleData)
    (hashFn : String → String) (gen : Entry → String) (retries b : Nat)
    (entries : List Entry) (h : ∀ e ∈ entries, jsTrim e.link ≠ "") :
    keysDistinct (processEntries fetch hashFn gen retries b ⟨[], [], [], []⟩ entries)
    ∧ (scrapeArticles cFetch cHash cGen 1 800 ⟨none, none, none⟩ 10
        [[cE1, cE2], [cE1]]).state.articles.length = 2 := by
  constructor
  · exact (processEntries_inv fetch hashFn gen retries b entries
      ⟨[], [], [], []⟩ h List.Pairwise.nil (fun a ha => absurd ha
        (List.not_mem_nil a))).1
  · decide

/-- Witness for the amended C3 theorem. -/
theorem c3_dedup_amended_witness :
    keysDistinct (processEntries cFetch cHash cGen 1 800 ⟨[], [], [], []⟩ [cE1, cE2])
    ∧ (scrapeArticles cFetch cHash cGen 1 800 ⟨none, none, none⟩ 10
        [[cE1, cE2], [cE1]]).state.articles.length = 2 :=
  c3_dedup_amended cFetch cHash cGen 1 800 [cE1, cE2] (by decide)

/-! ### C5: publish-date window filter -/

/-- The spec's windowing example: three dated articles and the
`start=2025-03-01, end=2025-09-01` window. -/
def w1 : Entry :=
  ⟨"January article number one", "https://xz.aliyun.com/news/w1",
    "2025-01-01 08:00", "", "", ""⟩

def w2 : Entry :=
  ⟨"June article number two", "https://xz.aliyun.com/news/w2",
    "2025-06-15 12:30", "", "", ""⟩

def w3 : Entry :=
  ⟨"December article number three", "https://xz.aliyun.com/news/w3",
    "2025-12-31 23:59", "", "", ""⟩

def wCfg : CrawlCfg :=
  mkCrawlCfg (some (dateRank 2025 3 1 0 0)) (some (dateRank 2025 9 1 0 0)) none

/-- Claim C5: with any window bound configured, the filter keeps an
entry exactly when its publish timestamp is present, parseable, within
the inclusive `startDate`/`endDate` bounds that are set, and — when
neither range bound is set — strictly after `targetDate`; entries with
missing or unparseable timestamps are dropped.  In particular, of the
articles dated 2025-01-01 / 2025-06-15 / 2025-12-31 under
start=2025-03-01, end=2025-09-01, only the June one is retained. -/
theorem c5_window_filter (cfg : CrawlCfg) (e : Entry)
    (hcfg : cfg.startDate ≠ none ∨ cfg.endDate ≠ none ∨ cfg.targetDate ≠ none) :
    (keepEntry cfg e = true ↔
      e.publishTime ≠ "" ∧ ∃ d, parseTime e.publishTime = some d ∧
        (∀ sd, cfg.startDate = some sd → sd ≤ d) ∧
        (∀ ed, cfg.endDate = some ed → d ≤ ed) ∧
        (cfg.startDate = none → cfg.endDate = none →
          ∀ td, cfg.targetDate = some td → td < d))
    ∧ [w1, w2, w3].filter (keepEntry wCfg) = [w2] := by
  refine ⟨?_, by decide⟩
  rcases cfg with ⟨so, eo, tg⟩
  by_cases hpt : e.publishTime = ""
  · simp [keepEntry, hpt]
  · cases hd : parseTime e.publishTime with
    | none =>
      rcases so with _ | sd <;> rcases eo with _ | ed <;> rcases tg with _ | td <;>
        simp_all [keepEntry]
    | some x =>
      rcases so with _ | sd <;> rcases eo with _ | ed <;> rcases tg with _ | td <;>
        simp_all [keepEntry]

/-- Witness for C5: the spec's three-article windowing example. -/
theorem c5_window_filter_witness : [w1, w2, w3].filter (keepEntry wCfg) = [w2] :=
  (c5_window_filter wCfg w2 (Or.inl (by decide))).2

/-! ### C6: boundary pagination cutoff -/

theorem scrapeGo_visited_ge (fetch : String → Nat → ArticleData)
    (hashFn : String → String) (gen : Entry → String) (retries b : Nat)
    (cfg : CrawlCfg) (maxPages : Nat) :
    ∀ (pages : List (List Entry)) (cur : Nat) (s : CrawlState),
      ∀ q ∈ (scrapeGo fetch hashFn gen retries b cfg maxPages pages cur s).visited,
        cur ≤ q
  | [], cur, s => by
    intro q hq
    simp [scrapeGo] at hq
  | page :: rest, cur, s => by
    intro q hq
    by_cases h1 : maxPages < cur
    · simp [scrapeGo, h1] at hq
    · by_cases h2 : page.isEmpty
      · simp [scrapeGo, h1, h2] at hq
        omega
      · by_cases h3 : (hasOlderArticles cfg page && decide (3 < cur)) = true
        · simp [scrapeGo, h1, h2, h3] at hq
          omega
        · simp only [scrapeGo, if_neg h1, if_neg h2, if_neg h3,
            List.mem_cons] at hq
          rcases hq with h4 | h4
          · omega
          · have := scrapeGo_visited_ge fetch hashFn gen retries b cfg maxPages
              rest (cur + 1)
              (processEntries fetch hashFn gen retries b s (page.filter (keepEntry cfg)))
              q h4
            omega

theorem scrapeGo_boundary_stops (fetch : String → Nat → ArticleData)
    (hashFn : String → String) (gen : Entry → String) (retries b : Nat)
    (cfg : CrawlCfg) (maxPages : Nat) :
    ∀ (pages : List (List Entry)) (cur : Nat) (s : CrawlState) (p : Nat),
      p ∈ (scrapeGo fetch hashFn gen retries b cfg maxPages pages cur s).visited →
      hasOlderArticles cfg (pages.getD (p - cur) []) = true → 3 < p →
      (∀ q ∈ (scrapeGo fetch hashFn gen retries b cfg maxPages pages cur s).visited,
        q ≤ p)
      ∧ (∀ q ∈ (scrapeGo fetch hashFn gen retries b cfg maxPages pages cur s).nextRequests,
        q < p)
  | [], cur, s, p => by
    intro hp _ _
    simp [scrapeGo] at hp
  | page :: rest, cur, s, p => by
    intro hp hold h3p
    by_cases h1 : maxPages < cur
    · simp [scrapeGo, h1] at hp
    · by_cases h2 : page.isEmpty
      · simp [scrapeGo, h1, h2] at hp ⊢
        omega
      · by_cases h3 : (hasOlderArticles cfg page && decide (3 < cur)) = true
        · simp [scrapeGo, h1, h2, h3] at hp ⊢
          omega
        · simp only [scrapeGo, if_neg h1, if_neg h2, if_neg h3,
            List.mem_cons] at hp ⊢
          rcases hp with hp | hp
          · subst hp
            rw [Nat.sub_self, List.getD_cons_zero] at hold
            exact absurd (by simp [hold, h3p]) h3
          · have hge := scrapeGo_visited_ge fetch hashFn gen retries b cfg maxPages
              rest (cur + 1)
              (processEntries fetch hashFn gen retries b s (page.filter (keepEntry cfg)))
              p hp
            have hidx : (page :: rest).getD (p - cur) [] = rest.getD (p - (cur + 1)) [] := by
              rw [show p - cur = (p - (cur + 1)) + 1 by omega]
              exact List.getD_cons_succ
            rw [hidx] at hold
            have ih := scrapeGo_boundary_stops fetch hashFn gen retries b cfg maxPages
              rest (cur + 1)
              (processEntries fetch hashFn gen retries b s (page.filter (keepEntry cfg)))
              p hp hold h3p
            refine ⟨?_, ?_⟩
            · intro q hq
              rcases hq with hq | hq
              · omega
              · exact ih.1 q hq
            · intro q hq
              rcases hq with hq | hq
              · omega
              · exact ih.2 q hq

/-- Concrete pagination-cutoff scenario: a single `targetDate`
threshold, five pages, the boundary entry on page 4. -/
def pgEntry (n : Nat) (t : String) : Entry :=
  ⟨"Listing article stub", "https://xz.aliyun.com/news/p" ++ String.mk (Nat.toDigits 10 n),
    t, "", "", ""⟩

def pgCfg : CrawlCfg := mkCrawlCfg none none (some (dateRank 2025 6 1 0 0))

def pgPages : List (List Entry) :=
  [[pgEntry 1 "2025-09-05 10:00"], [pgEntry 2 "2025-09-04 10:00"],
   [pgEntry 3 "2025-09-03 10:00"], [pgEntry 4 "2025-05-01 10:00"],
   [pgEntry 5 "2025-04-01 10:00"]]

/-- Claim C6: with a configured lower date bound, whenever a crawled
page `p > 3` contains an entry dated at-or-before the bound, no page
after `p` is visited and the next page is never requested after `p`; in
particular, with the boundary entry on page 4 of five pages, pages
[1,2,3,4] are visited and page 5 is never requested (`goToNextPage` is
only invoked after pages 1, 2 and 3). -/
theorem c6_pagination_cutoff (fetch : String → Nat → ArticleData)
    (hashFn : String → String) (gen : Entry → String) (retries b : Nat)
    (cfg : CrawlCfg) (maxPages : Nat) (pages : List (List Entry)) (p : Nat)
    (hvisit : p ∈ (scrapeArticles fetch hashFn gen retries b cfg maxPages pages).visited)
    (hold : hasOlderArticles cfg (pages.getD (p - 1) []) = true)
    (h3p : 3 < p) :
    (∀ q ∈ (scrapeArticles fetch hashFn gen retries b cfg maxPages pages).visited, q ≤ p)
    ∧ (∀ q ∈ (scrapeArticles fetch hashFn gen retries b cfg maxPages pages).nextRequests,
        q < p)
    ∧ (scrapeArticles cFetch cHash cGen 1 800 pgCfg 10 pgPages).visited = [1, 2, 3, 4]
    ∧ (scrapeArticles cFetch cHash cGen 1 800 pgCfg 10 pgPages).nextRequests = [1, 2, 3] := by
  have h := scrapeGo_boundary_stops fetch hashFn gen retries b cfg maxPages pages 1
    ⟨[], [], [], []⟩ p hvisit hold h3p
  exact ⟨h.1, h.2, by decide, by decide⟩

/-- Witness for C6 at the concrete five-page scenario. -/
theorem c6_pagination_cutoff_witness :
    (scrapeArticles cFetch cHash cGen 1 800 pgCfg 10 pgPages).visited = [1, 2, 3, 4]
    ∧ (scrapeArticles cFetch cHash cGen 1 800 pgCfg 10 pgPages).nextRequests = [1, 2, 3] := by
  have h := c6_pagination_cutoff cFetch cHash cGen 1 800 pgCfg 10 pgPages 4
    (by decide) (by decide) (by decide)
  exact ⟨h.2.2.1, h.2.2.2⟩

/-! ### C9: existing file short-circuits the write but not the count -/

theorem fetchRetryGo_first_ok (f : Nat → ArticleData) (b retries : Nat)
    (h : looksFailed (f 0) = false) :
    fetchRetryGo f b 0 retries = (Except.ok (f 0), []) := by
  cases retries <;> simp [fetchRetryGo, h]

/-- Two distinct articles whose titles sanitize to the same file name. -/
def yA : Entry :=
  ⟨"Same shared title", "https://xz.aliyun.com/news/a", "2025-05-01 10:00",
    "", "", ""⟩

def yB : Entry :=
  ⟨"Same shared (title)", "https://xz.aliyun.com/news/b", "2025-05-02 10:00",
    "", "", ""⟩

def yFetch : String → Nat → ArticleData := fun _ _ => ⟨"", "fetched body"⟩

def yGen : Entry → String := fun e => "# " ++ e.title ++ "\n" ++ e.content

/-- Claim C9: when the sanitized file name already exists in the papers
directory, `saveArticleImmediately` leaves the existing content
untouched and still returns the file name as a success, so the article
is marked seen and appended to the persisted list (hence counted and
listed in the summary, which is generated from that list) while the
newly generated Markdown is never written; concretely, a second article
colliding on the sanitized name is counted but its own content never
reaches the disk. -/
theorem c9_existing_file_short_circuit
    (hashFn : String → String) (gen : Entry → String)
    (fetch : String → Nat → ArticleData) (retries b : Nat)
    (fsFiles : List (String × String)) (e : Entry) (s : CrawlState) (c c2 : String)
    (hex : lookupFile fsFiles (generateFileName hashFn e) = some c)
    (hkey : entryKey e ∉ s.seen)
    (hok : looksFailed (fetch e.link 0) = false)
    (hex2 : lookupFile s.fsFiles
        (generateFileName hashFn (refreshedEntry e (fetch e.link 0))) = some c2) :
    saveArticleImmediately hashFn gen fsFiles e
        = (fsFiles, some (generateFileName hashFn e))
    ∧ processEntry fetch hashFn gen retries b s e
        = { s with seen := entryKey e :: s.seen,
                   articles := s.articles ++ [refreshedEntry e (fetch e.link 0)] }
    ∧ (processEntries yFetch cHash yGen 1 800 ⟨[], [], [], []⟩ [yA, yB]).fsFiles
        = [("Same_shared_title.md", "# Same shared title\nfetched body")]
    ∧ (processEntries yFetch cHash yGen 1 800 ⟨[], [], [], []⟩ [yA, yB]).articles.length
        = 2 := by
  refine ⟨?_, ?_, by decide, by decide⟩
  · rw [saveArticleImmediately]
    rw [hex]
  · rw [processEntry]
    rw [if_neg hkey, fetchRetryGo_first_ok (fetch e.link) b retries hok]
    show (match (saveArticleImmediately hashFn gen s.fsFiles
        (refreshedEntry e (fetch e.link 0))).2 with
      | some _ =>
        if entryKey e ∈ s.seen then
          { s with fsFiles := (saveArticleImmediately hashFn gen s.fsFiles
              (refreshedEntry e (fetch e.link 0))).1 }
        else
          { s with
            fsFiles := (saveArticleImmediately hashFn gen s.fsFiles
              (refreshedEntry e (fetch e.link 0))).1,
            seen := entryKey e :: s.seen,
            articles := s.articles ++ [refreshedEntry e (fetch e.link 0)] }
      | none =>
        { s with fsFiles := (saveArticleImmediately hashFn gen s.fsFiles
            (refreshedEntry e (fetch e.link 0))).1 }) = _
    have hsave : saveArticleImmediately hashFn gen s.fsFiles
        (refreshedEntry e (fetch e.link 0))
        = (s.fsFiles, some (generateFileName hashFn (refreshedEntry e (fetch e.link 0)))) := by
      rw [saveArticleImmediately]
      rw [hex2]
    rw [hsave]
    simp only [if_neg hkey]

/-- Witness for C9: an article whose file already exists on disk. -/
theorem c9_existing_file_short_circuit_witness :
    saveArticleImmediately cHash yGen [("Same_shared_title.md", "old content")] yA
        = ([("Same_shared_title.md", "old content")], some "Same_shared_title.md")
    ∧ processEntry yFetch cHash yGen 1 800
          ⟨[], [], [], [("Same_shared_title.md", "old content")]⟩ yA
        = { seen := [entryKey yA],
            articles := [refreshedEntry yA (yFetch yA.link 0)],
            failures := [],
            fsFiles := [("Same_shared_title.md", "old content")] } := by
  have h := c9_existing_file_short_circuit cHash yGen yFetch 1 800
    [("Same_shared_title.md", "old content")] yA
    ⟨[], [], [], [("Same_shared_title.md", "old content")]⟩
    "old content" "old content" (by decide) (by decide) (by decide) (by decide)
  refine ⟨?_, ?_⟩
  · rw [h.1]
    decide
  · rw [h.2.1]
    rfl

/-! ## C7: code extractor (`extractCodeFromCard`, part_001 lines
1255-1365)

The JSDOM parse of the card's raw inner markup is the external parser;
the model starts from its output: a list of top-level nodes, each a
text node or an element with a (lowercase) tag, an attribute map and
children.  `querySelector('[attr]')` / `querySelectorAll('.cls')` are
pre-order searches; `walkNodes` concatenates descendant text skipping
`br` subtrees.  The `catch` branch (JSDOM throwing) is outside the
model. -/

inductive HNode where
  | text (s : String)
  | elem (tag : String) (attrs : List (String × String)) (children : List HNode)

/-- Attribute lookup on an element's attribute list. -/
def attrOf (attrs : List (String × String)) (name : String) : Option String :=
  (attrs.find? fun p => p.1 = name).map (·.2)

/-- Does the `class` attribute contain the given space-separated token? -/
def classHasAttrs (attrs : List (String × String)) (cls : List Char) : Bool :=
  match attrOf attrs "class" with
  | some v => (splitOnChar ' ' v.toList).any (· = cls)
  | none => false

mutual

/-- `querySelector('[name]')`: first element carrying the attribute,
in document (pre-)order. -/
def findAttrN (name : String) : HNode → Option HNode
  | .text _ => none
  | .elem t a cs =>
    if (attrOf a name).isSome then some (.elem t a cs) else findAttrL name cs

def findAttrL (name : String) : List HNode → Option HNode
  | [] => none
  | c :: cs =>
    match findAttrN name c with
    | some r => some r
    | none => findAttrL name cs

end

mutual

/-- `querySelectorAll('.cls')`: all matching elements in document
(pre-)order, descendants of matches included. -/
def collectClassN (cls : List Char) : HNode → List HNode
  | .text _ => []
  | .elem t a cs =>
    (if classHasAttrs a cls then [HNode.elem t a cs] else []) ++ collectClassL cls cs

def collectClassL (cls : List Char) : List HNode → List HNode
  | [] => []
  | c :: cs => collectClassN cls c ++ collectClassL cls cs

end

mutual

/-- `querySelector('tag')`: first element with the tag, pre-order. -/
def findTagN (tag : String) : HNode → Option HNode
  | .text _ => none
  | .elem t a cs => if t = tag then some (.elem t a cs) else findTagL tag cs

def findTagL (tag : String) : List HNode → Option HNode
  | [] => none
  | c :: cs =>
    match findTagN tag c with
    | some r => some r
    | none => findTagL tag cs

end

mutual

/-- `querySelector('pre code')`: first `code` element having a `pre`
ancestor, pre-order. -/
def findPreCodeN (insidePre : Bool) : HNode → Option HNode
  | .text _ => none
  | .elem t a cs =>
    if insidePre ∧ t = "code" then some (.elem t a cs)
    else findPreCodeL (insidePre ∨ t = "pre") cs

def findPreCodeL (insidePre : Bool) : List HNode → Option HNode
  | [] => none
  | c :: cs =>
    match findPreCodeN insidePre c with
    | some r => some r
    | none => findPreCodeL insidePre cs

end

mutual

/-- `textContent`: concatenation of all descendant text. -/
def textContentN : HNode → String
  | .text s => s
  | .elem _ _ cs => textContentL cs

def textContentL : List HNode → String
  | [] => ""
  | c :: cs => textContentN c ++ textContentL cs

end

mutual

/-- `walkNodes`: descendant text concatenated, `br` subtrees skipped. -/
def lineTextN : HNode → String
  | .text s => s
  | .elem tag _ cs => if tag = "br" then "" else lineTextL cs

def lineTextL : List HNode → String
  | [] => ""
  | c :: cs => lineTextN c ++ lineTextL cs

end

/-- One extracted text line per `cm-line` element: walk its children. -/
def lineTextOf : HNode → String
  | .text s => s
  | .elem _ _ cs => lineTextL cs

/-- `lines.join('\n')`. -/
def joinLines : List String → String
  | [] => ""
  | [l] => l
  | l :: ls => l ++ "\n" ++ joinLines ls

/-- `codeContent.replace(/​/g, '')`. -/
def stripZWSP (s : String) : String :=
  String.mk (s.toList.filter fun c => c ≠ Char.ofNat 0x200B)

/-- Language detection: the `data-codeblock-mode` value verbatim; only
when that yields nothing, the `data-language` value with `shell`
normalized to `bash`. -/
def detectLanguage (ns : List HNode) : String :=
  let l1 := match findAttrL "data-codeblock-mode" ns with
    | some n =>
      match n with
      | .elem _ a _ => (attrOf a "data-codeblock-mode").getD ""
      | .text _ => ""
    | none => ""
  if l1 = "" then
    match findAttrL "data-language" ns with
    | some n =>
      match n with
      | .elem _ a _ =>
        let l2 := (attrOf a "data-language").getD ""
        if l2 = "shell" then "bash" else l2
      | .text _ => ""
    | none => ""
  else l1

/-- The fallback container chain when no `cm-line` elements exist. -/
def fallbackNode (ns : List HNode) : Option HNode :=
  match (collectClassL "cm-content".toList ns).head? with
  | some n => some n
  | none =>
    match (collectClassL "ne-codeblock-inner".toList ns).head? with
    | some n => some n
    | none =>
      match findPreCodeL false ns with
      | some n => some n
      | none =>
        match findTagL "pre" ns with
        | some n => some n
        | none => findTagL "code" ns

/-- `extractCodeFromCard` on the parsed inner markup of a code card. -/
def extractCodeFromCard (ns : List HNode) : String :=
  let language := detectLanguage ns
  let codeLines := collectClassL "cm-line".toList ns
  let codeContent :=
    if codeLines.isEmpty then
      match fallbackNode ns with
      | some n => textContentN n
      | none => ""
    else joinLines (codeLines.map lineTextOf)
  let cleaned := stripZWSP codeContent
  if cleaned ≠ "" then "\n```" ++ language ++ "\n" ++ cleaned ++ "\n```\n\n"
  else ""

/-- A code card whose mode attribute is `shell`. -/
def shellCard : List HNode :=
  [.elem "div" [("data-codeblock-mode", "shell")]
    [.elem "div" [("class", "cm-line")] [.text "ls -la"]]]

/-- Claim C7 as stated is false: the language tag detected from the
mode attribute is NOT normalized `shell` → `bash` (only the
`data-language` fallback path normalizes); a card with
`data-codeblock-mode="shell"` emits a `shell` fence. -/
theorem c7_counterexample :
    extractCodeFromCard shellCard = "\n```shell\nls -la\n```\n\n"
    ∧ extractCodeFromCard shellCard ≠ "\n```bash\nls -la\n```\n\n" := by
  refine ⟨rfl, by decide⟩

/-- Builders for the amended statement: a code card with text-only
code lines. -/
def mkTextLine (s : String) : HNode :=
  .elem "div" [("class", "cm-line")] [.text s]

def mkCodeCard (mode : String) (lines : List HNode) : List HNode :=
  [.elem "div" [("data-codeblock-mode", mode)] lines]

def mkCodeCardLang (lang : String) (lines : List HNode) : List HNode :=
  [.elem "div" [("data-language", lang)] lines]

theorem findAttr_textLines (name : String) (hname : name ≠ "class") :
    ∀ ls : List String, findAttrL name (ls.map mkTextLine) = none
  | [] => rfl
  | s :: ls => by
    have hrec := findAttr_textLines name hname ls
    have hone : findAttrN name (mkTextLine s) = none := by
      rw [mkTextLine, findAttrN]
      rw [if_neg ?_]
      · rfl
      · rw [attrOf]
        simp only [List.find?]
        rw [decide_eq_false fun hc => hname hc.symm]
        simp
    rw [List.map_cons, findAttrL, hone, hrec]

theorem collect_textLines :
    ∀ ls : List String,
      collectClassL "cm-line".toList (ls.map mkTextLine) = ls.map mkTextLine
  | [] => rfl
  | s :: ls => by
    have hrec := collect_textLines ls
    have hone : collectClassN "cm-line".toList (mkTextLine s) = [mkTextLine s] := rfl
    rw [List.map_cons, collectClassL, hone, hrec]
    rfl

theorem lineText_textLines :
    ∀ ls : List String, (ls.map mkTextLine).map lineTextOf = ls
  | [] => rfl
  | s :: ls => by
    have hrec := lineText_textLines ls
    have hone : lineTextOf (mkTextLine s) = s := by
      show lineTextL [HNode.text s] = s
      show lineTextN (HNode.text s) ++ lineTextL [] = s
      show s ++ "" = s
      exact String.append_empty s
    rw [List.map_cons, List.map_cons, hone, hrec]

theorem detect_mkCodeCard (mode : String) (ls : List String) (hmode : mode ≠ "") :
    detectLanguage (mkCodeCard mode (ls.map mkTextLine)) = mode := by
  rw [detectLanguage, mkCodeCard]
  have hfind : findAttrL "data-codeblock-mode"
      [HNode.elem "div" [("data-codeblock-mode", mode)] (ls.map mkTextLine)]
      = some (.elem "div" [("data-codeblock-mode", mode)] (ls.map mkTextLine)) := by
    rw [findAttrL, findAttrN]
    rw [if_pos (by rw [attrOf]; simp [List.find?])]
  rw [hfind]
  simp [attrOf, List.find?, hmode]

theorem extract_mkCodeCard (mode : String) (ls : List String)
    (hmode : mode ≠ "") (hls : ls ≠ []) :
    extractCodeFromCard (mkCodeCard mode (ls.map mkTextLine))
      = (if stripZWSP (joinLines ls) ≠ "" then
          "\n```" ++ mode ++ "\n" ++ stripZWSP (joinLines ls) ++ "\n```\n\n"
        else "") := by
  rw [extractCodeFromCard, detect_mkCodeCard mode ls hmode]
  have hcollect : collectClassL "cm-line".toList (mkCodeCard mode (ls.map mkTextLine))
      = ls.map mkTextLine := by
    rw [mkCodeCard, collectClassL, collectClassN]
    have : classHasAttrs [("data-codeblock-mode", mode)] "cm-line".toList = false := rfl
    rw [this]
    rw [collect_textLines ls]
    simp [collectClassL]
  rw [hcollect]
  have hne : (ls.map mkTextLine).isEmpty = false := by
    cases ls with
    | nil => exact absurd rfl hls
    | cons a b => rfl
  rw [hne]
  rw [lineText_textLines ls]
  rfl

/-- Claim C7, amended: the language from the mode attribute is used
verbatim (no `shell` → `bash` there; only the `data-language` fallback
normalizes); each code-line element contributes the concatenation of
its descendant text with `br` subtrees ignored; the lines are joined
with newlines and zero-width spaces stripped; an empty result emits
the empty string, never an empty fence. -/
theorem c7_code_extractor_amended (mode s : String) (ls : List String)
    (rest cs : List HNode) (attrs : List (String × String))
    (hmode : mode ≠ "") (hls : ls ≠ []) :
    extractCodeFromCard (mkCodeCard mode (ls.map mkTextLine))
      = (if stripZWSP (joinLines ls) ≠ "" then
          "\n```" ++ mode ++ "\n" ++ stripZWSP (joinLines ls) ++ "\n```\n\n"
        else "")
    ∧ lineTextL (HNode.elem "br" attrs cs :: rest) = lineTextL rest
    ∧ lineTextL (HNode.text s :: rest) = s ++ lineTextL rest
    ∧ detectLanguage (mkCodeCardLang "shell" (ls.map mkTextLine)) = "bash"
    ∧ extractCodeFromCard (mkCodeCard mode [mkTextLine ""]) = ""
    ∧ extractCodeFromCard [] = "" := by
  refine ⟨extract_mkCodeCard mode ls hmode hls, ?_, rfl, ?_, ?_, rfl⟩
  · rw [lineTextL, lineTextN]
    rw [if_pos rfl]
    exact congrArg (fun t => "" ++ t) rfl
  · rw [detectLanguage, mkCodeCardLang]
    have hfind : findAttrL "data-codeblock-mode"
        [HNode.elem "div" [("data-language", "shell")] (ls.map mkTextLine)]
        = none := by
      rw [findAttrL, findAttrN]
      rw [if_neg (by rw [attrOf]; simp [List.find?])]
      rw [findAttr_textLines "data-codeblock-mode" (by decide) ls]
      rfl
    rw [hfind]
    have hfind2 : findAttrL "data-language"
        [HNode.elem "div" [("data-language", "shell")] (ls.map mkTextLine)]
        = some (.elem "div" [("data-language", "shell")] (ls.map mkTextLine)) := by
      rw [findAttrL, findAttrN]
      rw [if_pos (by rw [attrOf]; simp [List.find?])]
    rw [hfind2]
    rfl
  · have h1 := extract_mkCodeCard mode [""] hmode (by decide)
    rw [show ([""] : List String).map mkTextLine = [mkTextLine ""] from rfl] at h1
    rw [h1]
    rfl

/-- Witness for the amended C7 theorem at a concrete card. -/
theorem c7_code_extractor_amended_witness :
    extractCodeFromCard (mkCodeCard "python" [mkTextLine "print(1)", mkTextLine ""])
        = "\n```python\nprint(1)\n\n```\n\n"
    ∧ detectLanguage (mkCodeCardLang "shell" [mkTextLine "x"]) = "bash"
    ∧ extractCodeFromCard [] = "" := by
  have h := c7_code_extractor_amended "python" "txt" ["print(1)", ""] [] []
    [] (by decide) (by decide)
  refine ⟨?_, ?_, h.2.2.2.2.2⟩
  · have h1 := h.1
    rw [show (["print(1)", ""] : List String).map mkTextLine
        = [mkTextLine "print(1)", mkTextLine ""] from rfl] at h1
    rw [h1]
    rfl
  · have h4 := h.2.2.2.1
    rw [show (["print(1)", ""] : List String).map mkTextLine
        = [mkTextLine "print(1)", mkTextLine ""] from rfl] at h4
    exact (c7_code_extractor_amended "python" "txt" ["x"] [] [] []
      (by decide) (by decide)).2.2.2.1

/-! ## C8: image localizer idempotence (`localizeImagesInPapers`,
part_001 lines 1464-1600)

The regex scan over a Markdown file is the external parse; a file is
modelled as a list of segments, each plain text or one image reference
`![alt](url)` (remote or data).  The `sha1` digest, base64/URI
decoding, and network download are capabilities: `hashFn` the digest
(truncated to 32 hex chars for the target name), `dl url` whether the
download succeeds, and a data write succeeds exactly when the payload
after the comma is non-empty (`if (buf.length === 0) throw`).  Workers
are cooperative and the `images/` store threads task-to-task;
sequential processing models the pool. -/

inductive Seg where
  | text (s : String)
  | img (alt url : String)
deriving DecidableEq

/-- Structural prefix test on character lists. -/
def listPrefixOf : List Char → List Char → Bool
  | [], _ => true
  | _ :: _, [] => false
  | a :: as, b :: bs => (a == b) && listPrefixOf as bs

def strStarts (p s : String) : Bool := listPrefixOf p.toList s.toList

/-- Suffix test on character lists. -/
def endsWithStr (suf : String) (l : List Char) : Bool :=
  listPrefixOf suf.toList.reverse l.reverse

/-- `(https?:[^)\s]+)`: a remote image reference. -/
def isRemoteUrl (u : String) : Bool :=
  strStarts "http:" u || strStarts "https:" u

/-- The decorative inline-SVG placeholder stripped before scanning. -/
def isSvgPlaceholder (u : String) : Bool :=
  strStarts "data:image/svg+xml;" u

/-- A `data:image/...,payload` reference. -/
def isDataUrl (u : String) : Bool :=
  strStarts "data:image/" u && u.toList.contains ','

/-- The payload after the first comma of a data URL. -/
def payloadOf (u : String) : String :=
  String.mk ((u.toList.dropWhile (· ≠ ',')).drop 1)

/-- Segments surviving the placeholder strip
(`raw.replace(/!\[..\]\(data:image\/svg\+xml;..\)/gi, '')`). -/
def keepSeg : Seg → Bool
  | .img _ u => ! isSvgPlaceholder u
  | .text _ => true

/-- `inferImageExt`: extension from the lowercased URL path, default
`.jpg`. -/
def inferImageExt (u : String) : String :=
  let p := (u.toList.takeWhile (· ≠ '?')).map Char.toLower
  if endsWithStr ".png" p then ".png"
  else if endsWithStr ".jpeg" p then ".jpeg"
  else if endsWithStr ".jpg" p then ".jpg"
  else if endsWithStr ".gif" p then ".gif"
  else if endsWithStr ".webp" p then ".webp"
  else if endsWithStr ".svg" p then ".svg"
  else if endsWithStr ".bmp" p then ".bmp"
  else if endsWithStr ".ico" p then ".ico"
  else ".jpg"

/-- The lowercased MIME type of a data URL (between `data:` and the
first `;` or `,`). -/
def mimeOf (u : String) : String :=
  String.mk (((u.toList.drop 5).takeWhile fun c => c ≠ ';' ∧ c ≠ ',').map Char.toLower)

/-- Extension choice for a data reference (part_001 lines 1516-1525). -/
def dataImageExt (u : String) : String :=
  let mime := mimeOf u
  if containsSub "png" mime then ".png"
  else if containsSub "jpeg" mime || containsSub "jpg" mime then ".jpg"
  else if containsSub "gif" mime then ".gif"
  else if containsSub "webp" mime then ".webp"
  else if containsSub "bmp" mime then ".bmp"
  else if containsSub "svg" mime then ".svg"
  else if containsSub "x-icon" mime || containsSub "vnd.microsoft.icon" mime
    || containsSub "ico" mime then ".ico"
  else ".jpg"

/-- `sha1(locator).slice(0, 32) + ext`. -/
def targetName (hashFn : String → String) (loc ext : String) : String :=
  String.mk ((hashFn loc).toList.take 32) ++ ext

def remoteName (hashFn : String → String) (u : String) : String :=
  targetName hashFn u (inferImageExt u)

def dataName (hashFn : String → String) (u : String) : String :=
  targetName hashFn u (dataImageExt u)

/-- Outcome of processing one file's task list: the image store, the
download count and the url → local-path mapping of successful tasks. -/
structure TaskResult where
  store : List String
  downloads : Nat
  mapping : List (String × String)
deriving DecidableEq

/-- The remote-task worker loop: skip the fetch when the hash-named
target already exists; succeed on a completed download; failures leave
the reference unmapped. -/
def processRemote (hashFn : String → String) (dl : String → Bool) :
    List String → List String → TaskResult
  | [], store => ⟨store, 0, []⟩
  | u :: us, store =>
    let name := remoteName hashFn u
    if name ∈ store then
      let r := processRemote hashFn dl us store
      ⟨r.store, r.downloads, (u, "images/" ++ name) :: r.mapping⟩
    else if dl u then
      let r := processRemote hashFn dl us (name :: store)
      ⟨r.store, r.downloads + 1, (u, "images/" ++ name) :: r.mapping⟩
    else
      let r := processRemote hashFn dl us store
      ⟨r.store, r.downloads, r.mapping⟩

/-- The sequential data-image write loop. -/
def processData (hashFn : String → String) :
    List String → List String → TaskResult
  | [], store => ⟨store, 0, []⟩
  | u :: us, store =>
    let name := dataName hashFn u
    if name ∈ store then
      let r := processData hashFn us store
      ⟨r.store, r.downloads, (u, "images/" ++ name) :: r.mapping⟩
    else if payloadOf u ≠ "" then
      let r := processData hashFn us (name :: store)
      ⟨r.store, r.downloads + 1, (u, "images/" ++ name) :: r.mapping⟩
    else
      let r := processData hashFn us store
      ⟨r.store, r.downloads, r.mapping⟩

def lookupAssoc (m : List (String × String)) (u : String) : Option String :=
  (m.find? fun p => p.1 = u).map (·.2)

/-- Rewrite a reference whose task succeeded. -/
def rewriteSeg (m : List (String × String)) : Seg → Seg
  | .img alt u =>
    match lookupAssoc m u with
    | some rel => .img alt rel
    | none => .img alt u
  | .text s => .text s

def remoteUrlsOf (segs : List Seg) : List String :=
  segs.filterMap fun sg => match sg with
    | .img _ u => if isRemoteUrl u then some u else none
    | .text _ => none

def dataUrlsOf (segs : List Seg) : List String :=
  segs.filterMap fun sg => match sg with
    | .img _ u => if isDataUrl u then some u else none
    | .text _ => none

structure FileResult where
  segs : List Seg
  store : List String
  downloads : Nat
  wrote : Bool
deriving DecidableEq

/-- One file's localization pass: scan (placeholders excluded), remote
pool, data writes, and the rewrite that is persisted only when at least
one reference succeeded. -/
def localizeFile (hashFn : String → String) (dl : String → Bool)
    (store : List String) (segs : List Seg) : FileResult :=
  let scan := segs.filter keepSeg
  let r1 := processRemote hashFn dl (remoteUrlsOf scan) store
  let r2 := processData hashFn (dataUrlsOf scan) r1.store
  let mapping := r1.mapping ++ r2.mapping
  if mapping.isEmpty then ⟨segs, r2.store, r1.downloads + r2.downloads, false⟩
  else ⟨scan.map (rewriteSeg mapping), r2.store, r1.downloads + r2.downloads, true⟩

structure DirResult where
  files : List (List Seg)
  store : List String
  downloads : Nat
  writes : Nat
deriving DecidableEq

/-- The whole `papers/` pass, threading the `images/` store. -/
def localizeAll (hashFn : String → String) (dl : String → Bool) :
    List (List Seg) → List String → DirResult
  | [], store => ⟨[], store, 0, 0⟩
  | f :: fs, store =>
    let r := localizeFile hashFn dl store f
    let rest := localizeAll hashFn dl fs r.store
    ⟨r.segs :: rest.files, rest.store, r.downloads + rest.downloads,
      (if r.wrote then 1 else 0) + rest.writes⟩

/-- A segment that no pass will ever treat as a pending task. -/
def noTaskSeg : Seg → Bool
  | .img _ u => isSvgPlaceholder u || (! isRemoteUrl u && ! isDataUrl u)
  | .text _ => true

/-- Data segments whose write cannot fail. -/
def dataPayloadOk : Seg → Prop
  | .img _ u => isDataUrl u = true → payloadOf u ≠ ""
  | .text _ => True

theorem lookupAssoc_cons (a b u : String) (m : List (String × String)) :
    lookupAssoc ((a, b) :: m) u = if a = u then some b else lookupAssoc m u := by
  by_cases h : a = u
  · rw [if_pos h, lookupAssoc, List.find?_cons_of_pos _ (by simpa using h)]
    rfl
  · rw [if_neg h, lookupAssoc, List.find?_cons_of_neg _ (by simpa using h)]
    rfl

theorem lookupAssoc_append_none (m1 m2 : List (String × String)) (u : String) :
    lookupAssoc (m1 ++ m2) u = none ↔
      lookupAssoc m1 u = none ∧ lookupAssoc m2 u = none := by
  induction m1 with
  | nil =>
    rw [List.nil_append]
    exact ⟨fun hh => ⟨rfl, hh⟩, fun hh => hh.2⟩
  | cons p m1 ih =>
    rcases p with ⟨a, b⟩
    rw [List.cons_append, lookupAssoc_cons, lookupAssoc_cons]
    by_cases h : a = u
    · simp [h]
    · simp only [if_neg h]
      exact ih

theorem lookupAssoc_mem {m : List (String × String)} {u rel : String}
    (h : lookupAssoc m u = some rel) : ∃ a, (a, rel) ∈ m := by
  rw [lookupAssoc] at h
  cases hf : m.find? fun p => p.1 = u with
  | none => rw [hf] at h; simp at h
  | some pr =>
    rw [hf] at h
    simp at h
    refine ⟨pr.1, ?_⟩
    have hmem := List.mem_of_find?_eq_some hf
    rw [← h]
    simpa using hmem

theorem localizeFile_clean (hashFn : String → String) (dl : String → Bool)
    (store : List String) (segs : List Seg)
    (h : ∀ sg ∈ segs, noTaskSeg sg = true) :
    localizeFile hashFn dl store segs = ⟨segs, store, 0, false⟩ := by
  have hrem : remoteUrlsOf (segs.filter keepSeg) = [] := by
    rw [remoteUrlsOf, List.filterMap_eq_nil_iff]
    intro sg hsg
    have hnt := h sg (List.mem_of_mem_filter hsg)
    have hk := List.of_mem_filter hsg
    cases sg with
    | text s => rfl
    | img alt u =>
      simp only [keepSeg, Bool.not_eq_true'] at hk
      simp only [noTaskSeg, hk, Bool.false_or, Bool.and_eq_true,
        Bool.not_eq_true'] at hnt
      simp [hnt.1]
  have hdat : dataUrlsOf (segs.filter keepSeg) = [] := by
    rw [dataUrlsOf, List.filterMap_eq_nil_iff]
    intro sg hsg
    have hnt := h sg (List.mem_of_mem_filter hsg)
    have hk := List.of_mem_filter hsg
    cases sg with
    | text s => rfl
    | img alt u =>
      simp only [keepSeg, Bool.not_eq_true'] at hk
      simp only [noTaskSeg, hk, Bool.false_or, Bool.and_eq_true,
        Bool.not_eq_true'] at hnt
      simp [hnt.2]
  rw [localizeFile, hrem, hdat]
  rfl

theorem processRemote_mapping_form (hashFn : String → String) (dl : String → Bool) :
    ∀ (us store : List String), ∀ p ∈ (processRemote hashFn dl us store).mapping,
      ∃ name, p.2 = "images/" ++ name
  | [], store => by
    intro p hp
    simp [processRemote] at hp
  | u :: us, store => by
    intro p hp
    rw [processRemote] at hp
    by_cases h1 : remoteName hashFn u ∈ store
    · rw [if_pos h1] at hp
      rcases List.mem_cons.mp hp with h | h
      · exact ⟨remoteName hashFn u, by rw [h]⟩
      · exact processRemote_mapping_form hashFn dl us store p h
    · rw [if_neg h1] at hp
      by_cases h2 : dl u = true
      · rw [if_pos h2] at hp
        rcases List.mem_cons.mp hp with h | h
        · exact ⟨remoteName hashFn u, by rw [h]⟩
        · exact processRemote_mapping_form hashFn dl us
            (remoteName hashFn u :: store) p h
      · rw [if_neg h2] at hp
        exact processRemote_mapping_form hashFn dl us store p hp

theorem processData_mapping_form (hashFn : String → String) :
    ∀ (us store : List String), ∀ p ∈ (processData hashFn us store).mapping,
      ∃ name, p.2 = "images/" ++ name
  | [], store => by
    intro p hp
    simp [processData] at hp
  | u :: us, store => by
    intro p hp
    rw [processData] at hp
    by_cases h1 : dataName hashFn u ∈ store
    · rw [if_pos h1] at hp
      rcases List.mem_cons.mp hp with h | h
      · exact ⟨dataName hashFn u, by rw [h]⟩
      · exact processData_mapping_form hashFn us store p h
    · rw [if_neg h1] at hp
      by_cases h2 : payloadOf u ≠ ""
      · rw [if_pos h2] at hp
        rcases List.mem_cons.mp hp with h | h
        · exact ⟨dataName hashFn u, by rw [h]⟩
        · exact processData_mapping_form hashFn us (dataName hashFn u :: store) p h
      · rw [if_neg h2] at hp
        exact processData_mapping_form hashFn us store p hp

theorem processRemote_complete (hashFn : String → String) (dl : String → Bool)
    (hdl : ∀ x, dl x = true) :
    ∀ (us store : List String), ∀ u ∈ us,
      (lookupAssoc (processRemote hashFn dl us store).mapping u).isSome = true
  | [], store => by
    intro u hu
    simp at hu
  | v :: us, store => by
    intro u hu
    rw [processRemote]
    by_cases h1 : remoteName hashFn v ∈ store
    · rw [if_pos h1]
      show (lookupAssoc ((v, "images/" ++ remoteName hashFn v)
        :: (processRemote hashFn dl us store).mapping) u).isSome = true
      rw [lookupAssoc_cons]
      by_cases hv : v = u
      · rw [if_pos hv]; rfl
      · rw [if_neg hv]
        rcases List.mem_cons.mp hu with h | h
        · exact absurd h.symm hv
        · exact processRemote_complete hashFn dl hdl us store u h
    · rw [if_neg h1, if_pos (hdl v)]
      show (lookupAssoc ((v, "images/" ++ remoteName hashFn v)
        :: (processRemote hashFn dl us (remoteName hashFn v :: store)).mapping) u).isSome
        = true
      rw [lookupAssoc_cons]
      by_cases hv : v = u
      · rw [if_pos hv]; rfl
      · rw [if_neg hv]
        rcases List.mem_cons.mp hu with h | h
        · exact absurd h.symm hv
        · exact processRemote_complete hashFn dl hdl us
            (remoteName hashFn v :: store) u h

theorem processData_complete (hashFn : String → String) :
    ∀ (us store : List String), (∀ u ∈ us, payloadOf u ≠ "") → ∀ u ∈ us,
      (lookupAssoc (processData hashFn us store).mapping u).isSome = true
  | [], store => by
    intro _ u hu
    simp at hu
  | v :: us, store => by
    intro hpay u hu
    rw [processData]
    by_cases h1 : dataName hashFn v ∈ store
    · rw [if_pos h1]
      show (lookupAssoc ((v, "images/" ++ dataName hashFn v)
        :: (processData hashFn us store).mapping) u).isSome = true
      rw [lookupAssoc_cons]
      by_cases hv : v = u
      · rw [if_pos hv]; rfl
      · rw [if_neg hv]
        rcases List.mem_cons.mp hu with h | h
        · exact absurd h.symm hv
        · exact processData_complete hashFn us store
            (fun x hx => hpay x (List.mem_cons_of_mem v hx)) u h
    · rw [if_neg h1, if_pos (hpay v (List.mem_cons_self v us))]
      show (lookupAssoc ((v, "images/" ++ dataName hashFn v)
        :: (processData hashFn us (dataName hashFn v :: store)).mapping) u).isSome
        = true
      rw [lookupAssoc_cons]
      by_cases hv : v = u
      · rw [if_pos hv]; rfl
      · rw [if_neg hv]
        rcases List.mem_cons.mp hu with h | h
        · exact absurd h.symm hv
        · exact processData_complete hashFn us (dataName hashFn v :: store)
            (fun x hx => hpay x (List.mem_cons_of_mem v hx)) u h

theorem noTask_images (alt name : String) :
    noTaskSeg (Seg.img alt ("images/" ++ name)) = true := rfl

theorem dataUrls_payload (segs : List Seg)
    (hdata : ∀ sg ∈ segs, dataPayloadOk sg) :
    ∀ u ∈ dataUrlsOf (segs.filter keepSeg), payloadOf u ≠ "" := by
  intro u hu
  rw [dataUrlsOf] at hu
  rcases List.mem_filterMap.mp hu with ⟨sg, hsg, hmap⟩
  cases sg with
  | text s => simp at hmap
  | img alt v =>
    by_cases hd : isDataUrl v
    · simp only [if_pos hd, Option.some.injEq] at hmap
      rw [← hmap]
      exact hdata (Seg.img alt v) (List.mem_of_mem_filter hsg) hd
    · simp [hd] at hmap

theorem localizeFile_output_clean (hashFn : String → String) (dl : String → Bool)
    (store : List String) (segs : List Seg)
    (hdl : ∀ x, dl x = true)
    (hdata : ∀ sg ∈ segs, dataPayloadOk sg) :
    ∀ sg ∈ (localizeFile hashFn dl store segs).segs, noTaskSeg sg = true := by
  intro sg hsg
  rw [localizeFile] at hsg
  by_cases hm : ((processRemote hashFn dl (remoteUrlsOf (segs.filter keepSeg)) store).mapping
      ++ (processData hashFn (dataUrlsOf (segs.filter keepSeg))
          (processRemote hashFn dl (remoteUrlsOf (segs.filter keepSeg)) store).store).mapping).isEmpty
  · rw [if_pos hm] at hsg
    cases sg with
    | text s => rfl
    | img alt u =>
      by_cases hph : isSvgPlaceholder u
      · simp [noTaskSeg, hph]
      · have hmem : Seg.img alt u ∈ segs.filter keepSeg :=
          List.mem_filter.mpr ⟨hsg, by simp [keepSeg, hph]⟩
        rw [List.isEmpty_iff] at hm
        rcases List.append_eq_nil.mp hm with ⟨hm1, hm2⟩
        by_cases hr : isRemoteUrl u
        · exfalso
          have hu : u ∈ remoteUrlsOf (segs.filter keepSeg) := by
            rw [remoteUrlsOf]
            exact List.mem_filterMap.mpr ⟨Seg.img alt u, hmem, by simp [hr]⟩
          have := processRemote_complete hashFn dl hdl
            (remoteUrlsOf (segs.filter keepSeg)) store u hu
          rw [hm1] at this
          simp [lookupAssoc] at this
        · by_cases hd : isDataUrl u
          · exfalso
            have hu : u ∈ dataUrlsOf (segs.filter keepSeg) := by
              rw [dataUrlsOf]
              exact List.mem_filterMap.mpr ⟨Seg.img alt u, hmem, by simp [hd]⟩
            have := processData_complete hashFn
              (dataUrlsOf (segs.filter keepSeg))
              (processRemote hashFn dl (remoteUrlsOf (segs.filter keepSeg)) store).store
              (dataUrls_payload segs hdata) u hu
            rw [hm2] at this
            simp [lookupAssoc] at this
          · simp [noTaskSeg, hr, hd]
  · rw [if_neg hm] at hsg
    rcases List.mem_map.mp hsg with ⟨sg0, hsg0, hrw⟩
    cases sg0 with
    | text s => rw [← hrw]; rfl
    | img alt u =>
      rw [← hrw, rewriteSeg]
      cases hl : lookupAssoc ((processRemote hashFn dl (remoteUrlsOf (segs.filter keepSeg)) store).mapping
          ++ (processData hashFn (dataUrlsOf (segs.filter keepSeg))
              (processRemote hashFn dl (remoteUrlsOf (segs.filter keepSeg)) store).store).mapping) u with
      | some rel =>
        rcases lookupAssoc_mem hl with ⟨a, ham⟩
        rcases List.mem_append.mp ham with hin | hin
        · rcases processRemote_mapping_form hashFn dl _ _ (a, rel) hin with ⟨name, hn⟩
          simp only at hn
          rw [hn]
          exact noTask_images alt name
        · rcases processData_mapping_form hashFn _ _ (a, rel) hin with ⟨name, hn⟩
          simp only at hn
          rw [hn]
          exact noTask_images alt name
      | none =>
        rcases (lookupAssoc_append_none _ _ _).mp hl with ⟨hn1, hn2⟩
        have hph : isSvgPlaceholder u = false := by
          have hk := List.of_mem_filter hsg0
          simpa [keepSeg, Bool.not_eq_true'] using hk
        by_cases hr : isRemoteUrl u
        · exfalso
          have hu : u ∈ remoteUrlsOf (segs.filter keepSeg) := by
            rw [remoteUrlsOf]
            exact List.mem_filterMap.mpr ⟨Seg.img alt u, hsg0, by simp [hr]⟩
          have := processRemote_complete hashFn dl hdl
            (remoteUrlsOf (segs.filter keepSeg)) store u hu
          rw [hn1] at this
          simp at this
        · by_cases hd : isDataUrl u
          · exfalso
            have hu : u ∈ dataUrlsOf (segs.filter keepSeg) := by
              rw [dataUrlsOf]
              exact List.mem_filterMap.mpr ⟨Seg.img alt u, hsg0, by simp [hd]⟩
            have := processData_complete hashFn
              (dataUrlsOf (segs.filter keepSeg))
              (processRemote hashFn dl (remoteUrlsOf (segs.filter keepSeg)) store).store
              (dataUrls_payload segs hdata) u hu
            rw [hn2] at this
            simp at this
          · simp [noTaskSeg, hr, hd]

theorem localizeAll_clean (hashFn : String → String) (dl : String → Bool) :
    ∀ (files : List (List Seg)) (store : List String),
      (∀ f ∈ files, ∀ sg ∈ f, noTaskSeg sg = true) →
      localizeAll hashFn dl files store = ⟨files, store, 0, 0⟩
  | [], store, _ => rfl
  | f :: fs, store, h => by
    rw [localizeAll]
    rw [localizeFile_clean hashFn dl store f (h f (List.mem_cons_self f fs))]
    rw [localizeAll_clean hashFn dl fs store
      (fun g hg => h g (List.mem_cons_of_mem f hg))]
    rfl

theorem localizeAll_output_clean (hashFn : String → String) (dl : String → Bool)
    (hdl : ∀ x, dl x = true) :
    ∀ (files : List (List Seg)) (store : List String),
      (∀ f ∈ files, ∀ sg ∈ f, dataPayloadOk sg) →
      ∀ g ∈ (localizeAll hashFn dl files store).files, ∀ sg ∈ g, noTaskSeg sg = true
  | [], store, _ => by
    intro g hg
    simp [localizeAll] at hg
  | f :: fs, store, hdata => by
    intro g hg
    rw [localizeAll] at hg
    rcases List.mem_cons.mp hg with h | h
    · intro sg hsg
      rw [h] at hsg
      exact localizeFile_output_clean hashFn dl store f hdl
        (hdata f (List.mem_cons_self f fs)) sg hsg
    · exact localizeAll_output_clean hashFn dl hdl fs
        (localizeFile hashFn dl store f).store
        (fun x hx => hdata x (List.mem_cons_of_mem f hx)) g h

/-- Claim C8: a reference whose hash-derived target file already exists
is never downloaded or written (its task still counts as succeeded and
is rewritten); consequently, when every download succeeds and every
data payload is writable, a second localizer run over the produced
directory performs zero downloads, writes no file, and leaves every
file's content unchanged. -/
theorem c8_localizer_idempotent (hashFn : String → String) (dl : String → Bool)
    (store : List String) (files : List (List Seg)) (u : String)
    (hdl : ∀ x, dl x = true)
    (hdata : ∀ f ∈ files, ∀ sg ∈ f, dataPayloadOk sg)
    (hexists : remoteName hashFn u ∈ store) :
    processRemote hashFn dl [u] store
        = ⟨store, 0, [(u, "images/" ++ remoteName hashFn u)]⟩
    ∧ localizeAll hashFn dl (localizeAll hashFn dl files store).files
          (localizeAll hashFn dl files store).store
        = ⟨(localizeAll hashFn dl files store).files,
            (localizeAll hashFn dl files store).store, 0, 0⟩ := by
  constructor
  · rw [processRemote, if_pos hexists]
    rfl
  · exact localizeAll_clean hashFn dl _ _
      (localizeAll_output_clean hashFn dl hdl files store hdata)

/-- Witness for C8 at a concrete directory: one file with one remote
reference whose target already exists, one with a fresh reference. -/
theorem c8_localizer_idempotent_witness :
    processRemote (fun s => s) (fun _ => true) ["http://a/x.png"]
        [remoteName (fun s => s) "http://a/x.png"]
      = ⟨[remoteName (fun s => s) "http://a/x.png"], 0,
          [("http://a/x.png", "images/" ++ remoteName (fun s => s) "http://a/x.png")]⟩
    ∧ localizeAll (fun s => s) (fun _ => true)
          (localizeAll (fun s => s) (fun _ => true)
            [[Seg.text "hello ", Seg.img "pic" "http://a/x.png"]]
            [remoteName (fun s => s) "http://a/x.png"]).files
          (localizeAll (fun s => s) (fun _ => true)
            [[Seg.text "hello ", Seg.img "pic" "http://a/x.png"]]
            [remoteName (fun s => s) "http://a/x.png"]).store
        = ⟨(localizeAll (fun s => s) (fun _ => true)
              [[Seg.text "hello ", Seg.img "pic" "http://a/x.png"]]
              [remoteName (fun s => s) "http://a/x.png"]).files,
            (localizeAll (fun s => s) (fun _ => true)
              [[Seg.text "hello ", Seg.img "pic" "http://a/x.png"]]
              [remoteName (fun s => s) "http://a/x.png"]).store, 0, 0⟩ := by
  have h := c8_localizer_idempotent (fun s => s) (fun _ => true)
    [remoteName (fun s => s) "http://a/x.png"]
    [[Seg.text "hello ", Seg.img "pic" "http://a/x.png"]]
    "http://a/x.png" (fun _ => rfl)
    (by
      intro f hf sg hsg
      simp at hf
      rw [hf] at hsg
      rcases List.mem_cons.mp hsg with h1 | h1
      · rw [h1]; exact trivial
      · rcases List.mem_cons.mp h1 with h2 | h2
        · rw [h2]
          intro hfalse
          exact absurd hfalse (by decide)
        · exact absurd h2 (List.not_mem_nil sg))
    (List.mem_cons_self _ _)
  exact h

/-! ## C10: `downloadWithReferer` (part_001 lines 1616-1650)

The HTTP client is a capability `net : url → response`; a 200 response
is a script of stream events.  Node semantics modelled: the write
stream is created (file truncated to empty) as soon as the 200 response
arrives; `ws.on('finish')` resolves; `ws.on('error')` unlinks then
rejects; `req.on('error')` (including the 30s timeout destroying the
request mid-transfer) rejects with no unlink attached — `res.pipe(ws)`
does not destroy or error the write stream when the request side dies,
so the partial file stays.  An event script without a terminal is the
timeout case. -/

inductive StreamEv where
  | chunk (s : String)
  | finished
  | wsError
  | reqError
deriving DecidableEq

inductive HttpResp where
  | redirect (loc : String)
  | bad (code : Nat)
  | ok (events : List StreamEv)

inductive DlOutcome where
  | resolved
  | rejected (msg : String)
deriving DecidableEq

/-- Stream a 200 response body into the just-created destination file
(`fs.createWriteStream` truncates it to empty first). -/
def runStream : List StreamEv → String → Option String × DlOutcome
  | [], acc => (some acc, DlOutcome.rejected "Request timeout")
  | StreamEv.chunk s :: evs, acc => runStream evs (acc ++ s)
  | StreamEv.finished :: _, acc => (some acc, DlOutcome.resolved)
  | StreamEv.wsError :: _, _ => (none, DlOutcome.rejected "write error")
  | StreamEv.reqError :: _, acc => (some acc, DlOutcome.rejected "request error")

/-- `downloadWithReferer`: `fuel` is `maxRedirects - redirectCount`
(initially 5); the destination-file state is threaded explicitly
(`none` = absent). -/
def downloadWithReferer (net : String → HttpResp) :
    Nat → String → Option String → Option String × DlOutcome
  | 0, url, fs =>
    match net url with
    | HttpResp.redirect _ => (fs, DlOutcome.rejected "Too many redirects")
    | HttpResp.bad code =>
      (fs, DlOutcome.rejected ("HTTP " ++ String.mk (Nat.toDigits 10 code)))
    | HttpResp.ok events => runStream events ""
  | f + 1, url, fs =>
    match net url with
    | HttpResp.redirect loc => downloadWithReferer net f loc fs
    | HttpResp.bad code =>
      (fs, DlOutcome.rejected ("HTTP " ++ String.mk (Nat.toDigits 10 code)))
    | HttpResp.ok events => runStream events ""

/-- A transfer whose request side dies after one chunk. -/
def c10Net : String → HttpResp := fun _ =>
  HttpResp.ok [StreamEv.chunk "partial-bytes", StreamEv.reqError]

/-- Claim C10 as stated is false: a request-side error after streaming
began rejects the promise while the partially written destination file
remains on disk, so "the destination file exists exactly when the
promise resolved" fails. -/
theorem c10_counterexample :
    (downloadWithReferer c10Net 5 "http://img.example/x.png" none).2
        = DlOutcome.rejected "request error"
    ∧ (downloadWithReferer c10Net 5 "http://img.example/x.png" none).1
        = some "partial-bytes" := by
  exact ⟨rfl, rfl⟩

theorem runStream_resolved :
    ∀ (evs : List StreamEv) (acc : String),
      (runStream evs acc).2 = DlOutcome.resolved →
      ∃ c, (runStream evs acc).1 = some c
  | [], acc => by
    intro h
    simp [runStream] at h
  | StreamEv.chunk s :: evs, acc => by
    intro h
    exact runStream_resolved evs (acc ++ s) h
  | StreamEv.finished :: evs, acc => by
    intro _
    exact ⟨acc, rfl⟩
  | StreamEv.wsError :: evs, acc => by
    intro h
    simp [runStream] at h
  | StreamEv.reqError :: evs, acc => by
    intro h
    simp [runStream] at h

theorem download_resolved_file_exists (net : String → HttpResp) :
    ∀ (fuel : Nat) (url : String) (fs : Option String),
      (downloadWithReferer net fuel url fs).2 = DlOutcome.resolved →
      ∃ c, (downloadWithReferer net fuel url fs).1 = some c
  | 0, url, fs => by
    intro h
    rw [downloadWithReferer] at h ⊢
    cases hnu : net url with
    | redirect loc => rw [hnu] at h; exact absurd h (by simp)
    | bad code => rw [hnu] at h; exact absurd h (by simp)
    | ok events => rw [hnu] at h; exact runStream_resolved events "" h
  | f + 1, url, fs => by
    intro h
    rw [downloadWithReferer] at h ⊢
    cases hnu : net url with
    | redirect loc => rw [hnu] at h; exact download_resolved_file_exists net f loc fs h
    | bad code => rw [hnu] at h; exact absurd h (by simp)
    | ok events => rw [hnu] at h; exact runStream_resolved events "" h

/-- Claim C10, amended: exceeding the redirect budget or a non-redirect
non-200 status rejects without touching the destination-file state; a
write-stream error unlinks the partial file before rejecting; whenever
the promise resolves the destination file exists; BUT a request-side
error or timeout after the 200 response began streaming rejects while
leaving the partially written destination file in place, so the file
can exist after a failed transfer. -/
theorem c10_download_file_state_amended (net : String → HttpResp)
    (fuel : Nat) (url loc s acc : String) (code : Nat)
    (fs : Option String) (evs : List StreamEv)
    (hred : net url = HttpResp.redirect loc)
    (hbad : net loc = HttpResp.bad code) :
    downloadWithReferer net 0 url fs = (fs, DlOutcome.rejected "Too many redirects")
    ∧ downloadWithReferer net (fuel + 1) url fs
        = (fs, DlOutcome.rejected ("HTTP " ++ String.mk (Nat.toDigits 10 code)))
    ∧ runStream (StreamEv.wsError :: evs) acc = (none, DlOutcome.rejected "write error")
    ∧ ((downloadWithReferer net fuel url fs).2 = DlOutcome.resolved →
        ∃ c, (downloadWithReferer net fuel url fs).1 = some c)
    ∧ runStream (StreamEv.chunk s :: StreamEv.reqError :: evs) acc
        = (some (acc ++ s), DlOutcome.rejected "request error") := by
  refine ⟨?_, ?_, rfl, download_resolved_file_exists net fuel url fs, rfl⟩
  · rw [downloadWithReferer, hred]
  · rw [downloadWithReferer, hred]
    show downloadWithReferer net fuel loc fs = _
    cases fuel with
    | zero =>
      rw [downloadWithReferer, hbad]
    | succ f =>
      rw [downloadWithReferer, hbad]

/-- Witness for the amended C10 theorem: a one-hop redirect into a 404. -/
def c10Net2 : String → HttpResp := fun u =>
  if u = "http://a/start" then HttpResp.redirect "http://a/next"
  else HttpResp.bad 404

theorem c10_download_file_state_amended_witness :
    downloadWithReferer c10Net2 0 "http://a/start" none
        = (none, DlOutcome.rejected "Too many redirects")
    ∧ downloadWithReferer c10Net2 3 "http://a/start" none
        = (none, DlOutcome.rejected ("HTTP " ++ String.mk (Nat.toDigits 10 404)))
    ∧ runStream [StreamEv.wsError] "x" = (none, DlOutcome.rejected "write error")
    ∧ runStream [StreamEv.chunk "ab", StreamEv.reqError] "x"
        = (some ("x" ++ "ab"), DlOutcome.rejected "request error") := by
  have h := c10_download_file_state_amended c10Net2 2 "http://a/start"
    "http://a/next" "ab" "x" 404 none [] rfl rfl
  exact ⟨h.1, h.2.1, h.2.2.1, h.2.2.2.2⟩

end XZ
